import Mathlib

/-!
Shallow embedding of the celect query engine (a single-table analytical
query engine over CSV files) and proofs about its specification claims.

Source layout mirrored here:
* `src/execution/bitmap.rs`      → `Celect.Bitmap`
* `src/execution/data_chunk.rs`  → `Celect.SelectionVector`, `Celect.Vector`, `Celect.DataChunk`
* `src/execution/buffer_pool.rs` → `Celect.BufferPool`
* `src/execution/operators/*`    → `Celect.filterExecute`, `Celect.limitExecute`, …
* `src/execution/executor.rs`    → `Celect.executeLoop`
* `src/optimizer.rs`             → `Celect.Optimizer.*`
* `src/planner.rs`               → `Celect.Planner.plan`
* `src/execution/operators/scan.rs` (`parse_value`) → `Celect.parse_value`

Modelling conventions:
* Rust `u64`/`usize` arithmetic is `Nat` with explicit `% 2^64` / masking where
  the source relies on wrap or saturation; `u16` casts are `% 65536` at the
  cast sites.
* Rust `i64` is `Int`; the engine never performs wrapping arithmetic on stored
  integers (only comparisons), and the i64 range check is modelled in the
  string parser where the source relies on it.
* Rust `f64` is modelled by `Celect.F64`: an exact rational for finite values
  plus infinities and NaN, with IEEE-style comparison behaviour (NaN compares
  unequal to everything).  No claim proved below depends on rounding of
  floating-point values, which is the only aspect this idealises.
* `panic!`/assertion sites (out-of-bounds pushes, row-shape mismatches) are
  modelled as no-ops; every theorem below only exercises them under
  hypotheses that keep the source panic-free.
-/

set_option maxHeartbeats 1000000

namespace Celect

/-- Result of executing a physical operator (`operators/mod.rs::ExecuteResult`). -/
inductive ExecuteResult where
  | NeedMoreInput
  | Finished
deriving DecidableEq, Repr

/-- Column types (`binder.rs::ColumnType`). -/
inductive ColumnType where
  | Integer
  | Float
  | Boolean
  | Varchar
  | Null
deriving DecidableEq, Repr

/-- Model of a Rust `f64` value: exact rational for finite values, plus the
two infinities and NaN.  Comparisons follow IEEE-754 semantics at this
granularity (NaN is unequal to and unordered with everything). -/
inductive F64 where
  | finite (q : Rat)
  | infinite (neg : Bool)
  | nan
deriving DecidableEq, Repr

/-- IEEE `==` on modelled `f64` (NaN equals nothing, including itself). -/
def F64.beq : F64 → F64 → Bool
  | .finite a, .finite b => a == b
  | .infinite s, .infinite t => s == t
  | _, _ => false

/-- IEEE `<` on modelled `f64`. -/
def F64.lt : F64 → F64 → Bool
  | .finite a, .finite b => decide (a < b)
  | .finite _, .infinite s => !s
  | .infinite s, .finite _ => s
  | .infinite s, .infinite t => s && !t
  | _, _ => false

/-- IEEE `<=` on modelled `f64`. -/
def F64.le (a b : F64) : Bool := F64.lt a b || F64.beq a b

/-- Rust `i64 as f64` cast, modelled exactly (no rounding; no claim below
depends on the rounding of integers above 2^53). -/
def intToF64 (i : Int) : F64 := .finite (i : Rat)

/-- Runtime values (`data_chunk.rs::Value`). -/
inductive Value where
  | Integer (i : Int)
  | Float (f : F64)
  | Boolean (b : Bool)
  | Varchar (s : String)
  | Null
deriving DecidableEq, Repr

/-- Parsed literal values (`parser.rs::LiteralValue`). -/
inductive LiteralValue where
  | Integer (i : Int)
  | Float (f : F64)
  | String (s : String)
  | Boolean (b : Bool)
  | Null
deriving DecidableEq, Repr

/-- `u64::MAX`. -/
def u64MAX : Nat := 2 ^ 64 - 1

/-- `usize::MAX` (the target is 64-bit). -/
def usizeMAX : Nat := 2 ^ 64 - 1

/-- `usize::saturating_add`. -/
def satAdd (a b : Nat) : Nat := min (a + b) usizeMAX

/-- `usize::saturating_mul`. -/
def satMul (a b : Nat) : Nat := min (a * b) usizeMAX

/-- Validity bitmap (`bitmap.rs::Bitmap`): `u64` words, 1 = valid, 0 = NULL. -/
structure Bitmap where
  words : List Nat
  len : Nat
deriving DecidableEq, Repr

namespace Bitmap

/-- `Bitmap::BITS_PER_WORD`. -/
def BITS_PER_WORD : Nat := 64

/-- `Bitmap::new`: all bits set to 1 (all valid). -/
def new (len : Nat) : Bitmap :=
  let num_words := (len + BITS_PER_WORD - 1) / BITS_PER_WORD
  { words := List.replicate num_words u64MAX, len := len }

/-- `Bitmap::new_all_null`: all bits 0. -/
def new_all_null (len : Nat) : Bitmap :=
  let num_words := (len + BITS_PER_WORD - 1) / BITS_PER_WORD
  { words := List.replicate num_words 0, len := len }

/-- `Bitmap::word_and_bit`. -/
def word_and_bit (index : Nat) : Nat × Nat :=
  (index / BITS_PER_WORD, index % BITS_PER_WORD)

/-- `Bitmap::is_valid` (bit = 1). -/
def is_valid (bm : Bitmap) (index : Nat) : Bool :=
  let wb := word_and_bit index
  let word := bm.words.getD wb.1 0
  (word &&& (1 <<< wb.2)) != 0

/-- `Bitmap::is_null`. -/
def is_null (bm : Bitmap) (index : Nat) : Bool := !bm.is_valid index

/-- `Bitmap::set_valid` (`word |= 1 << bit`). -/
def set_valid (bm : Bitmap) (index : Nat) : Bitmap :=
  let wb := word_and_bit index
  { bm with words := bm.words.set wb.1 ((bm.words.getD wb.1 0) ||| (1 <<< wb.2)) }

/-- `Bitmap::set_null` (`word &= !(1 << bit)`; the `u64` complement of
`1 << bit` is `u64MAX ^^^ (1 <<< bit)`). -/
def set_null (bm : Bitmap) (index : Nat) : Bitmap :=
  let wb := word_and_bit index
  { bm with words := bm.words.set wb.1 ((bm.words.getD wb.1 0) &&& (u64MAX ^^^ (1 <<< wb.2))) }

/-- `Bitmap::all_valid`: every tracked bit is 1. -/
def all_valid (bm : Bitmap) : Bool :=
  let full_words := bm.len / BITS_PER_WORD
  (((List.range full_words).all fun i => bm.words.getD i 0 == u64MAX) &&
    (let remaining_bits := bm.len % BITS_PER_WORD
     if remaining_bits > 0 then
       let mask := (1 <<< remaining_bits) - 1
       (bm.words.getD full_words 0 &&& mask) == mask
     else true))

/-- `Bitmap::resize`: grow the word array with all-ones words when needed;
new bits are valid.  (A shrink keeps the words and only updates `len`.) -/
def resize (bm : Bitmap) (new_len : Nat) : Bitmap :=
  let new_num_words := (new_len + BITS_PER_WORD - 1) / BITS_PER_WORD
  let words :=
    if new_num_words > bm.words.length then
      bm.words ++ List.replicate (new_num_words - bm.words.length) u64MAX
    else bm.words
  { words := words, len := new_len }

/-- Kernighan's set-bit count (`while w != 0 { w &= w - 1; count += 1 }`)
from `Bitmap::count_valid`. -/
def popcountKer (w : Nat) : Nat :=
  if h : w = 0 then 0
  else popcountKer (w &&& (w - 1)) + 1
termination_by w
decreasing_by
  exact Nat.lt_of_le_of_lt Nat.and_le_right (by omega)

/-- `Bitmap::count_valid`: number of 1 bits among the first `count` bits,
with the source's fast paths. -/
def count_valid (bm : Bitmap) (count : Nat) : Nat :=
  if count = 0 then 0
  else if bm.all_valid then count
  else
    let full_words := count / BITS_PER_WORD
    let fromFull := (List.range full_words).foldl
      (fun acc i =>
        let word := bm.words.getD i 0
        if word = u64MAX then acc + BITS_PER_WORD
        else if word = 0 then acc
        else acc + popcountKer word) 0
    let remaining_bits := count % BITS_PER_WORD
    if remaining_bits > 0 then
      let word := bm.words.getD full_words 0
      let mask := (1 <<< remaining_bits) - 1
      let masked_word := word &&& mask
      fromFull +
        (if masked_word = mask then remaining_bits
         else if masked_word = 0 then 0
         else popcountKer masked_word)
    else fromFull

end Bitmap

/-- Selection vector (`data_chunk.rs::SelectionVector`).  The source stores
`u16` indices; each cast site appears below as `% 65536`. -/
structure SelectionVector where
  indices : List Nat
deriving DecidableEq, Repr

namespace SelectionVector

/-- `SelectionVector::new` (capacity is only a reservation). -/
def new (_capacity : Nat) : SelectionVector := ⟨[]⟩

/-- `SelectionVector::push`. -/
def push (sv : SelectionVector) (index : Nat) : SelectionVector := ⟨sv.indices ++ [index]⟩

/-- `SelectionVector::get`. -/
def get (sv : SelectionVector) (i : Nat) : Nat := sv.indices.getD i 0

/-- `SelectionVector::count`. -/
def count (sv : SelectionVector) : Nat := sv.indices.length

/-- `SelectionVector::is_empty`. -/
def isEmptySel (sv : SelectionVector) : Bool := sv.indices.isEmpty

end SelectionVector

/-- Columnar vector (`data_chunk.rs::Vector`): typed data plus validity. -/
inductive Vector where
  | Integer (data : List Int) (validity : Bitmap)
  | Float (data : List F64) (validity : Bitmap)
  | Boolean (data : List Bool) (validity : Bitmap)
  | Varchar (data : List String) (validity : Bitmap)
deriving DecidableEq, Repr

namespace Vector

/-- `Vector::new`: empty vector of the given type; a requested `Null` column
type yields an Integer vector (source behaviour).  The capacity argument is
a memory reservation only. -/
def new (column_type : ColumnType) (_capacity : Nat) : Vector :=
  match column_type with
  | .Integer => .Integer [] (Bitmap.new 0)
  | .Float => .Float [] (Bitmap.new 0)
  | .Boolean => .Boolean [] (Bitmap.new 0)
  | .Varchar => .Varchar [] (Bitmap.new 0)
  | .Null => .Integer [] (Bitmap.new 0)

/-- `Vector::len`. -/
def len : Vector → Nat
  | .Integer data _ => data.length
  | .Float data _ => data.length
  | .Boolean data _ => data.length
  | .Varchar data _ => data.length

/-- `Vector::validity`. -/
def validity : Vector → Bitmap
  | .Integer _ v => v
  | .Float _ v => v
  | .Boolean _ v => v
  | .Varchar _ v => v

/-- `Vector::get`: `none` out of bounds, `some Null` when the bit is 0. -/
def get (v : Vector) (index : Nat) : Option Value :=
  match v with
  | .Integer data validity =>
    if index ≥ data.length then none
    else if validity.is_valid index then some (.Integer (data.getD index 0)) else some .Null
  | .Float data validity =>
    if index ≥ data.length then none
    else if validity.is_valid index then some (.Float (data.getD index (.finite 0))) else some .Null
  | .Boolean data validity =>
    if index ≥ data.length then none
    else if validity.is_valid index then some (.Boolean (data.getD index false)) else some .Null
  | .Varchar data validity =>
    if index ≥ data.length then none
    else if validity.is_valid index then some (.Varchar (data.getD index "")) else some .Null

/-- `Vector::push`.  A value/vector type mismatch panics in the source; it is
modelled as a no-op and never exercised by the theorems below. -/
def push (v : Vector) (value : Value) : Vector :=
  match v, value with
  | .Integer data validity, .Integer i =>
    let data := data ++ [i]
    .Integer data ((validity.resize data.length).set_valid (data.length - 1))
  | .Integer data validity, .Null =>
    let data := data ++ [0]
    .Integer data ((validity.resize data.length).set_null (data.length - 1))
  | .Float data validity, .Float f =>
    let data := data ++ [f]
    .Float data ((validity.resize data.length).set_valid (data.length - 1))
  | .Float data validity, .Null =>
    let data := data ++ [.finite 0]
    .Float data ((validity.resize data.length).set_null (data.length - 1))
  | .Boolean data validity, .Boolean b =>
    let data := data ++ [b]
    .Boolean data ((validity.resize data.length).set_valid (data.length - 1))
  | .Boolean data validity, .Null =>
    let data := data ++ [false]
    .Boolean data ((validity.resize data.length).set_null (data.length - 1))
  | .Varchar data validity, .Varchar s =>
    let data := data ++ [s]
    .Varchar data ((validity.resize data.length).set_valid (data.length - 1))
  | .Varchar data validity, .Null =>
    let data := data ++ [""]
    .Varchar data ((validity.resize data.length).set_null (data.length - 1))
  | v, _ => v

/-- `Vector::clear`. -/
def clear : Vector → Vector
  | .Integer _ validity => .Integer [] (validity.resize 0)
  | .Float _ validity => .Float [] (validity.resize 0)
  | .Boolean _ validity => .Boolean [] (validity.resize 0)
  | .Varchar _ validity => .Varchar [] (validity.resize 0)

/-- `Vector::column_type`. -/
def column_type : Vector → ColumnType
  | .Integer _ _ => .Integer
  | .Float _ _ => .Float
  | .Boolean _ _ => .Boolean
  | .Varchar _ _ => .Varchar

end Vector

/-- Columnar batch (`data_chunk.rs::DataChunk`). -/
structure DataChunk where
  columns : List Vector
  count : Nat
  capacity : Nat
  selection : Option SelectionVector
deriving DecidableEq, Repr

namespace DataChunk

/-- `DataChunk::STANDARD_VECTOR_SIZE`. -/
def STANDARD_VECTOR_SIZE : Nat := 2048

/-- `DataChunk::new`. -/
def new (column_types : List ColumnType) (capacity : Nat) : DataChunk :=
  { columns := column_types.map fun t => Vector.new t capacity
    count := 0
    capacity := capacity
    selection := none }

/-- `DataChunk::empty`. -/
def empty : DataChunk := { columns := [], count := 0, capacity := 0, selection := none }

/-- `DataChunk::reset`: clear every vector, zero the count, drop selection. -/
def reset (c : DataChunk) : DataChunk :=
  { columns := c.columns.map Vector.clear
    count := 0
    capacity := c.capacity
    selection := none }

/-- `DataChunk::is_empty`. -/
def is_empty (c : DataChunk) : Bool := c.count == 0

/-- `DataChunk::column_count`. -/
def column_count (c : DataChunk) : Nat := c.columns.length

/-- `DataChunk::get_value`: with a selection, `row_idx` indexes the selection. -/
def get_value (c : DataChunk) (column_idx row_idx : Nat) : Option Value :=
  match c.selection with
  | some sel =>
    if row_idx ≥ sel.count then none
    else (c.columns.get? column_idx).bind fun col => col.get (sel.get row_idx)
  | none =>
    if row_idx ≥ c.count then none
    else (c.columns.get? column_idx).bind fun col => col.get row_idx

/-- `DataChunk::selected_count`. -/
def selected_count (c : DataChunk) : Nat :=
  match c.selection with
  | some sel => sel.count
  | none => c.count

/-- `DataChunk::set_selection`. -/
def set_selection (c : DataChunk) (selection : SelectionVector) : DataChunk :=
  { c with selection := some selection }

/-- `DataChunk::clear_selection`. -/
def clear_selection (c : DataChunk) : DataChunk := { c with selection := none }

/-- `DataChunk::append_row`.  The source asserts the row matches the schema
and that the chunk is below capacity; the theorems below keep both true. -/
def append_row (c : DataChunk) (row : List Value) : DataChunk :=
  { c with columns := List.zipWith Vector.push c.columns row, count := c.count + 1 }

/-- `DataChunk::apply_offset`: drop the first `n` rows via the selection
vector (`i as u16` modelled by `% 65536`). -/
def apply_offset (c : DataChunk) (n : Nat) : DataChunk :=
  if n = 0 then c
  else
    match c.selection with
    | some sel =>
      if n ≥ sel.count then { c with selection := some ⟨[]⟩ }
      else { c with selection := some ⟨sel.indices.drop n⟩ }
    | none =>
      if n ≥ c.count then { c with selection := some ⟨[]⟩ }
      else { c with selection := some ⟨(List.range' n (c.count - n)).map (· % 65536)⟩ }

/-- `DataChunk::truncate`: keep only the first `n` rows. -/
def truncate (c : DataChunk) (n : Nat) : DataChunk :=
  if n ≥ c.selected_count then c
  else
    match c.selection with
    | some sel => { c with selection := some ⟨sel.indices.take n⟩ }
    | none => { c with selection := some ⟨(List.range n).map (· % 65536)⟩ }

end DataChunk

/-- Schema column entry (`binder.rs::Column`). -/
structure Column where
  name : String
  type_ : ColumnType
  index : Nat
deriving DecidableEq, Repr

/-- Bound aggregate expressions (`binder.rs::BoundAggregateExpression`). -/
inductive BoundAggregateExpression where
  | CountStar
  | Count (column : Column)
deriving DecidableEq, Repr

/-- Bound expression tree (`binder.rs::BoundExpression`). -/
inductive BoundExpression where
  | Or (l r : BoundExpression)
  | And (l r : BoundExpression)
  | Not (e : BoundExpression)
  | ColumnRef (name : String) (index : Nat) (type_ : ColumnType)
  | Literal (value : LiteralValue) (type_ : ColumnType)
  | Equal (l r : BoundExpression)
  | NotEqual (l r : BoundExpression)
  | GreaterThan (l r : BoundExpression)
  | GreaterThanOrEqual (l r : BoundExpression)
  | LessThan (l r : BoundExpression)
  | LessThanOrEqual (l r : BoundExpression)
deriving DecidableEq, Repr

/-! ## Filter operator (`operators/filter.rs`) -/

/-- `PhysicalFilter::compare_equal`.  Note the source's `(Null, Null) => true`
branch. -/
def compare_equal : Value → Value → Bool
  | .Integer l, .Integer r => l == r
  | .Float l, .Float r => F64.beq l r
  | .Integer l, .Float r => F64.beq (intToF64 l) r
  | .Float l, .Integer r => F64.beq l (intToF64 r)
  | .Boolean l, .Boolean r => l == r
  | .Varchar l, .Varchar r => l == r
  | .Null, .Null => true
  | _, _ => false

/-- `PhysicalFilter::compare_greater`. -/
def compare_greater : Value → Value → Bool
  | .Integer l, .Integer r => decide (l > r)
  | .Float l, .Float r => F64.lt r l
  | .Integer l, .Float r => F64.lt r (intToF64 l)
  | .Float l, .Integer r => F64.lt (intToF64 r) l
  | .Varchar l, .Varchar r => decide (r < l)
  | _, _ => false

/-- `PhysicalFilter::compare_greater_equal`. -/
def compare_greater_equal : Value → Value → Bool
  | .Integer l, .Integer r => decide (l ≥ r)
  | .Float l, .Float r => F64.le r l
  | .Integer l, .Float r => F64.le r (intToF64 l)
  | .Float l, .Integer r => F64.le (intToF64 r) l
  | .Varchar l, .Varchar r => decide (r ≤ l)
  | _, _ => false

/-- `PhysicalFilter::compare_less`. -/
def compare_less : Value → Value → Bool
  | .Integer l, .Integer r => decide (l < r)
  | .Float l, .Float r => F64.lt l r
  | .Integer l, .Float r => F64.lt (intToF64 l) r
  | .Float l, .Integer r => F64.lt l (intToF64 r)
  | .Varchar l, .Varchar r => decide (l < r)
  | _, _ => false

/-- `PhysicalFilter::compare_less_equal`. -/
def compare_less_equal : Value → Value → Bool
  | .Integer l, .Integer r => decide (l ≤ r)
  | .Float l, .Float r => F64.le l r
  | .Integer l, .Float r => F64.le (intToF64 l) r
  | .Float l, .Integer r => F64.le l (intToF64 r)
  | .Varchar l, .Varchar r => decide (l ≤ r)
  | _, _ => false

/-- `PhysicalFilter::evaluate_expression` on one row. -/
def evaluate_expression (chunk : DataChunk) (row_idx : Nat) :
    BoundExpression → Option Value
  | .ColumnRef _ index _ => chunk.get_value index row_idx
  | .Literal value _ =>
    some (match value with
      | .Integer i => .Integer i
      | .Float f => .Float f
      | .String s => .Varchar s
      | .Boolean b => .Boolean b
      | .Null => .Null)
  | .Equal l r => do
    let lv ← evaluate_expression chunk row_idx l
    let rv ← evaluate_expression chunk row_idx r
    some (.Boolean (compare_equal lv rv))
  | .NotEqual l r => do
    let lv ← evaluate_expression chunk row_idx l
    let rv ← evaluate_expression chunk row_idx r
    some (.Boolean (!compare_equal lv rv))
  | .GreaterThan l r => do
    let lv ← evaluate_expression chunk row_idx l
    let rv ← evaluate_expression chunk row_idx r
    some (.Boolean (compare_greater lv rv))
  | .GreaterThanOrEqual l r => do
    let lv ← evaluate_expression chunk row_idx l
    let rv ← evaluate_expression chunk row_idx r
    some (.Boolean (compare_greater_equal lv rv))
  | .LessThan l r => do
    let lv ← evaluate_expression chunk row_idx l
    let rv ← evaluate_expression chunk row_idx r
    some (.Boolean (compare_less lv rv))
  | .LessThanOrEqual l r => do
    let lv ← evaluate_expression chunk row_idx l
    let rv ← evaluate_expression chunk row_idx r
    some (.Boolean (compare_less_equal lv rv))
  | .And l r => do
    let lv ← evaluate_expression chunk row_idx l
    let rv ← evaluate_expression chunk row_idx r
    match lv, rv with
    | .Boolean a, .Boolean b => some (.Boolean (a && b))
    | _, _ => none
  | .Or l r => do
    let lv ← evaluate_expression chunk row_idx l
    let rv ← evaluate_expression chunk row_idx r
    match lv, rv with
    | .Boolean a, .Boolean b => some (.Boolean (a || b))
    | _, _ => none
  | .Not e => do
    let v ← evaluate_expression chunk row_idx e
    match v with
    | .Boolean b => some (.Boolean (!b))
    | _ => none

/-- `PhysicalFilter::evaluate_predicate`: non-Boolean / `none` results count
as `false`. -/
def evaluate_predicate (predicate : BoundExpression) (chunk : DataChunk) (row_idx : Nat) :
    Bool :=
  match evaluate_expression chunk row_idx predicate with
  | some (.Boolean b) => b
  | _ => false

/-- `PhysicalFilter::execute`: build a selection of passing physical rows;
share the columns; the output buffer's previous content is fully
overwritten (`row_idx as u16` modelled by `% 65536`). -/
def filterExecute (predicate : BoundExpression) (input : DataChunk) : DataChunk :=
  let selection : SelectionVector :=
    ⟨((List.range input.count).filter fun r => evaluate_predicate predicate input r).map
      (· % 65536)⟩
  { columns := input.columns
    count := input.count
    capacity := input.capacity
    selection := some selection }

/-! ## Projection operator (`operators/projection.rs`) -/

/-- `PhysicalProjection::execute`: materialize the selected rows of the
referenced columns; non-`ColumnRef` expressions produce all-NULL Varchar
columns (unsupported-computed-expression fallback in the source). -/
def projectionExecute (expressions : List BoundExpression) (input : DataChunk) : DataChunk :=
  let row_count := input.selected_count
  let projected := expressions.map fun expr =>
    match expr with
    | .ColumnRef _ index type_ =>
      (List.range row_count).foldl
        (fun col row_idx =>
          match input.get_value index row_idx with
          | some v => col.push v
          | none => col.push .Null)
        (Vector.new type_ row_count)
    | _ =>
      (List.range row_count).foldl (fun col _ => col.push .Null)
        (Vector.new .Varchar row_count)
  { columns := projected
    count := row_count
    capacity := row_count
    selection := none }

/-! ## Limit operator (`operators/limit.rs`) -/

/-- Mutable state of `PhysicalLimit`. -/
structure LimitState where
  limit : Option Nat
  offset : Option Nat
  offset_remaining : Nat
  rows_emitted : Nat
deriving DecidableEq, Repr

/-- `PhysicalLimit::new`. -/
def LimitState.new (limit offset : Option Nat) : LimitState :=
  { limit := limit, offset := offset, offset_remaining := offset.getD 0, rows_emitted := 0 }

/-- The LIMIT-truncation tail of `PhysicalLimit::execute` (the code after
the OFFSET block; split out here for reuse in the two control paths). -/
def limitApplyLimit (st : LimitState) (output : DataChunk) :
    LimitState × DataChunk × ExecuteResult :=
  match st.limit with
  | some limit =>
    let remaining_quota := limit - st.rows_emitted
    let available_rows := output.selected_count
    let output := if available_rows > remaining_quota then output.truncate remaining_quota
      else output
    let st := { st with rows_emitted := st.rows_emitted + output.selected_count }
    if st.rows_emitted ≥ limit then (st, output, .Finished)
    else (st, output, .NeedMoreInput)
  | none => (st, output, .NeedMoreInput)

/-- `PhysicalLimit::execute`.  The early `Finished` returns leave the output
buffer untouched. -/
def limitExecute (st : LimitState) (input output : DataChunk) :
    LimitState × DataChunk × ExecuteResult :=
  if (match st.limit with | some l => decide (st.rows_emitted ≥ l) | none => false) = true then
    (st, output, .Finished)
  else if input.is_empty then (st, output, .Finished)
  else
    let output := input
    if st.offset_remaining > 0 then
      let available_rows := output.selected_count
      if available_rows ≤ st.offset_remaining then
        ({ st with offset_remaining := st.offset_remaining - available_rows },
          output.reset, .NeedMoreInput)
      else
        let skip := st.offset_remaining
        limitApplyLimit { st with offset_remaining := 0 } (output.apply_offset skip)
    else
      limitApplyLimit st output

/-! ## Ungrouped aggregate operator (`operators/aggregate.rs`) -/

/-- Mutable state of `PhysicalUngroupedAggregate`. -/
structure AggState where
  aggregates : List BoundAggregateExpression
  states : List Int
  finished : Bool
  has_emitted : Bool
deriving DecidableEq, Repr

/-- `PhysicalUngroupedAggregate::new`. -/
def AggState.new (aggregates : List BoundAggregateExpression) : AggState :=
  { aggregates := aggregates
    states := List.replicate aggregates.length 0
    finished := false
    has_emitted := false }

/-- Per-aggregate counter delta of `update_states`: `selected_count` for
`COUNT(*)`; validity popcount over the first `selected_count` bits for
`COUNT(col)` (skipped when the column is missing). -/
def aggDelta (chunk : DataChunk) : BoundAggregateExpression → Int
  | .CountStar => (chunk.selected_count : Int)
  | .Count column =>
    if column.index ≥ chunk.column_count then 0
    else
      let vector := chunk.columns.getD column.index (.Integer [] (Bitmap.new 0))
      ((vector.validity.count_valid chunk.selected_count : Nat) : Int)

/-- `PhysicalUngroupedAggregate::update_states` (the source indexes
`states[i]` for each enumerated aggregate; `states` always has one entry
per aggregate). -/
def update_states (st : AggState) (chunk : DataChunk) : AggState :=
  { st with states := List.zipWith (fun agg s => s + aggDelta chunk agg) st.aggregates st.states }

/-- `PhysicalUngroupedAggregate::emit_result`. -/
def emit_result (st : AggState) : DataChunk :=
  let output_types := List.replicate st.aggregates.length ColumnType.Integer
  (DataChunk.new output_types 1).append_row (st.states.map Value.Integer)

/-- `PhysicalUngroupedAggregate::execute`. -/
def aggExecute (st : AggState) (input output : DataChunk) :
    AggState × DataChunk × ExecuteResult :=
  if st.finished then (st, output.reset, .Finished)
  else if st.has_emitted then ({ st with finished := true }, output.reset, .Finished)
  else if input.is_empty then
    ({ st with has_emitted := true, finished := true }, emit_result st, .Finished)
  else
    (update_states st input, output.reset, .NeedMoreInput)

/-! ## Scan operator, as seen by the executor (`operators/scan.rs`)

The scanner itself does file IO and threading; what the executor observes is
a stream of non-empty standard batches followed by `Finished` with a reset
output (`PhysicalScan::execute`'s parallel path: `recv Ok` ⇒ copy chunk,
`NeedMoreInput`; channel closed ⇒ reset output, `Finished`).  The model
below delivers a fixed list of batches with exactly that interface. -/

/-- Executor-facing model of `PhysicalScan`: the remaining batches. -/
structure SourceState where
  chunks : List DataChunk
deriving DecidableEq, Repr

/-- One `PhysicalScan::execute` call as the executor observes it. -/
def sourceExecute (st : SourceState) (output : DataChunk) :
    SourceState × DataChunk × ExecuteResult :=
  match st.chunks with
  | [] => (st, output.reset, .Finished)
  | c :: rest => (⟨rest⟩, c, .NeedMoreInput)

/-! ## Operator dispatch and the pipeline executor (`executor.rs`) -/

/-- Closed variant set of physical operators with their mutable state
(`Vec<Box<dyn PhysicalOperator>>` in the source). -/
inductive OpState where
  | source (st : SourceState)
  | filter (predicate : BoundExpression)
  | projection (expressions : List BoundExpression)
  | limitOp (st : LimitState)
  | aggregate (st : AggState)
deriving DecidableEq, Repr

/-- `PhysicalOperator::execute` dispatch: state, input and output buffer in;
new state, written output and result out. -/
def execOp : OpState → DataChunk → DataChunk → OpState × DataChunk × ExecuteResult
  | .source st, _input, output =>
    let r := sourceExecute st output
    (.source r.1, r.2)
  | .filter p, input, _output => (.filter p, filterExecute p input, .NeedMoreInput)
  | .projection es, input, _output =>
    (.projection es, projectionExecute es input, .NeedMoreInput)
  | .limitOp st, input, output =>
    let r := limitExecute st input output
    (.limitOp r.1, r.2)
  | .aggregate st, input, output =>
    let r := aggExecute st input output
    (.aggregate r.1, r.2)

/-! ### Buffer pool (`buffer_pool.rs`) -/

/-- `BufferPool`: the free list (head = top of the `Vec`), its capacity and
the standard chunk size. -/
structure BufferPool where
  pool : List DataChunk
  capacity : Nat
  chunk_size : Nat
deriving DecidableEq, Repr

namespace BufferPool

/-- `BufferPool::get_chunk_with_schema`: reuse a pooled chunk (reset and
re-schema it) or build a fresh one. -/
def get_chunk_with_schema (p : BufferPool) (column_types : List ColumnType) :
    DataChunk × BufferPool :=
  match p.pool with
  | chunk :: rest =>
    let chunk := chunk.reset
    let chunk := { chunk with
      columns := column_types.map fun t => Vector.new t p.chunk_size
      capacity := p.chunk_size }
    (chunk, { p with pool := rest })
  | [] => (DataChunk.new column_types p.chunk_size, p)

/-- `BufferPool::return_chunk`: reset and keep the chunk when below
capacity, else drop it. -/
def return_chunk (p : BufferPool) (chunk : DataChunk) : BufferPool :=
  if p.pool.length < p.capacity then { p with pool := chunk.reset :: p.pool } else p

end BufferPool

/-- Acquire one scratch chunk per schema, threading the pool
(`schemas.iter().map(|s| pool.get_chunk_with_schema(s)).collect()`). -/
def acquireAll (pool : BufferPool) : List (List ColumnType) → List DataChunk × BufferPool
  | [] => ([], pool)
  | s :: ss =>
    let r := pool.get_chunk_with_schema s
    let rest := acquireAll r.2 ss
    (r.1 :: rest.1, rest.2)

/-- Return every scratch chunk to the pool in order. -/
def returnAll (pool : BufferPool) (chunks : List DataChunk) : BufferPool :=
  chunks.foldl BufferPool.return_chunk pool

/-- Push a batch through operators 1..N in order (`executor.rs` inner loop):
each operator reads the previous operator's buffer and writes its own.
Returns the updated operator states, the written buffers in order, and the
(dropped-by-the-source) per-operator results, kept here as a trace. -/
def pushThrough : List OpState → List DataChunk → DataChunk →
    List OpState × List DataChunk × List ExecuteResult
  | op :: ops, buf :: bufs, prev =>
    let r := execOp op prev buf
    let rest := pushThrough ops bufs r.2.1
    (r.1 :: rest.1, r.2.1 :: rest.2.1, r.2.2 :: rest.2.2)
  | ops, [], _prev => (ops, [], [])
  | [], bufs, _prev => ([], bufs, [])

/-- Final state of one `PipelineExecutor::execute` run.  `iterations` (the
number of calls made to the source operator) and `dsTrace` (the downstream
results the source loop discards) are observation fields added for the
theorems; they do not influence control flow. -/
structure ExecOut where
  results : List DataChunk
  src : OpState
  downstream : List OpState
  pool : BufferPool
  iterations : Nat
  dsTrace : List (List ExecuteResult)
deriving Repr

/-- The loop of `PipelineExecutor::execute`.  Control flow is exactly the
source's: break when the source buffer is empty on an already-finished
source, otherwise push through the pipeline (setting `source_finished` on
the first empty source buffer so aggregates can finalize), collect the last
buffer when non-empty, return buffers, and break when the source returned
`Finished` with `source_finished` set.  `fuel` bounds the number of
iterations; every theorem below supplies enough fuel for the run to
complete. -/
def executeLoop (fuel : Nat) (schemas : List (List ColumnType)) (src : OpState)
    (downstream : List OpState) (pool : BufferPool) (source_finished : Bool)
    (results : List DataChunk) (iterations : Nat)
    (dsTrace : List (List ExecuteResult)) : ExecOut :=
  match fuel with
  | 0 => ⟨results, src, downstream, pool, iterations, dsTrace⟩
  | fuel + 1 =>
    let ab := acquireAll pool schemas
    match ab.1 with
    | [] => ⟨results, src, downstream, ab.2, iterations, dsTrace⟩
    | b0 :: restBufs =>
      let sr := execOp src DataChunk.empty b0
      let src := sr.1
      let b0 := sr.2.1
      let r0 := sr.2.2
      let iterations := iterations + 1
      if b0.is_empty && source_finished then
        ⟨results, src, downstream, returnAll ab.2 (b0 :: restBufs), iterations, dsTrace⟩
      else
        let source_finished := source_finished || b0.is_empty
        let pt := pushThrough downstream restBufs b0
        let downstream := pt.1
        let finalBufs := b0 :: pt.2.1
        let last := finalBufs.getLastD DataChunk.empty
        let results := if !last.is_empty then results ++ [last] else results
        let pool := returnAll ab.2 finalBufs
        let dsTrace := dsTrace ++ [pt.2.2]
        if r0 = .Finished && source_finished then
          ⟨results, src, downstream, pool, iterations, dsTrace⟩
        else
          executeLoop fuel schemas src downstream pool source_finished results iterations
            dsTrace

/-- `PipelineExecutor::execute`: fresh pool (capacity 100, standard chunk
size), then the loop. -/
def PipelineExecutor.execute (fuel : Nat) (schemas : List (List ColumnType))
    (src : OpState) (downstream : List OpState) : ExecOut :=
  executeLoop fuel schemas src downstream
    ⟨[], 100, DataChunk.STANDARD_VECTOR_SIZE⟩ false [] 0 []

/-! ## Logical plan (`planner.rs`) -/

/-- Logical plan nodes (`planner.rs::LogicalOperator`; the per-variant
structs are flattened into constructor arguments). -/
inductive LogicalOperator where
  | Get (file_path : String) (columns : List Column) (max_rows : Option Nat)
  | Filter (expression : BoundExpression) (child : LogicalOperator)
  | Projection (expressions : List BoundExpression) (child : LogicalOperator)
  | Limit (limit : Option Nat) (offset : Option Nat) (child : LogicalOperator)
  | Aggregate (aggregates : List BoundAggregateExpression) (child : LogicalOperator)
deriving DecidableEq, Repr

/-- Bound query as consumed from the binder (`binder.rs::BoundQuery`). -/
structure BoundQuery where
  select_columns : List Column
  file_path : String
  schema : List Column
  where_clause : Option BoundExpression
  limit : Option Nat
  offset : Option Nat
  aggregates : List BoundAggregateExpression
deriving DecidableEq, Repr

/-- `Planner::plan`: Get, then Filter (if WHERE), then Aggregate (skipping
Projection) or Projection, then Limit (if limit or offset). -/
def Planner.plan (query : BoundQuery) : LogicalOperator :=
  let root := LogicalOperator.Get query.file_path query.schema none
  let root :=
    match query.where_clause with
    | some w => LogicalOperator.Filter w root
    | none => root
  let root :=
    if query.aggregates.isEmpty then
      LogicalOperator.Projection
        (query.select_columns.map fun col => .ColumnRef col.name col.index col.type_) root
    else
      LogicalOperator.Aggregate query.aggregates root
  if query.limit.isSome || query.offset.isSome then
    LogicalOperator.Limit query.limit query.offset root
  else root

/-! ## Optimizer (`optimizer.rs`) -/

namespace Optimizer

/-- `Optimizer::is_constant_true`. -/
def is_constant_true : BoundExpression → Bool
  | .Literal (.Boolean true) _ => true
  | _ => false

/-- `Optimizer::is_constant_false`. -/
def is_constant_false : BoundExpression → Bool
  | .Literal (.Boolean false) _ => true
  | _ => false

/-- `Optimizer::extract_literal`. -/
def extract_literal : BoundExpression → Option LiteralValue
  | .Literal value _ => some value
  | _ => none

/-- `Optimizer::evaluate_equal` (compile-time fold; note
`NULL = NULL → false` here, unlike the runtime `compare_equal`). -/
def evaluate_equal : LiteralValue → LiteralValue → Option Bool
  | .Integer a, .Integer b => some (a == b)
  | .Float a, .Float b => some (F64.beq a b)
  | .String a, .String b => some (a == b)
  | .Boolean a, .Boolean b => some (a == b)
  | .Null, .Null => some false
  | _, _ => none

/-- `Optimizer::evaluate_not_equal`. -/
def evaluate_not_equal (l r : LiteralValue) : Option Bool :=
  (evaluate_equal l r).map (!·)

/-- `Optimizer::evaluate_greater_than`. -/
def evaluate_greater_than : LiteralValue → LiteralValue → Option Bool
  | .Integer a, .Integer b => some (decide (a > b))
  | .Float a, .Float b => some (F64.lt b a)
  | .String a, .String b => some (decide (b < a))
  | _, _ => none

/-- `Optimizer::evaluate_greater_than_or_equal`. -/
def evaluate_greater_than_or_equal : LiteralValue → LiteralValue → Option Bool
  | .Integer a, .Integer b => some (decide (a ≥ b))
  | .Float a, .Float b => some (F64.le b a)
  | .String a, .String b => some (decide (b ≤ a))
  | _, _ => none

/-- `Optimizer::evaluate_less_than`. -/
def evaluate_less_than : LiteralValue → LiteralValue → Option Bool
  | .Integer a, .Integer b => some (decide (a < b))
  | .Float a, .Float b => some (F64.lt a b)
  | .String a, .String b => some (decide (a < b))
  | _, _ => none

/-- `Optimizer::evaluate_less_than_or_equal`. -/
def evaluate_less_than_or_equal : LiteralValue → LiteralValue → Option Bool
  | .Integer a, .Integer b => some (decide (a ≤ b))
  | .Float a, .Float b => some (F64.le a b)
  | .String a, .String b => some (decide (a ≤ b))
  | _, _ => none

/-- `Optimizer::make_bool_literal`. -/
def make_bool_literal (value : Bool) : BoundExpression :=
  .Literal (.Boolean value) .Boolean

/-- Fold helper shared by the six comparison arms of `simplify_expression`:
if both simplified children are literals and the evaluator succeeds,
replace with a boolean literal, else rebuild. -/
def foldComparison (build : BoundExpression → BoundExpression → BoundExpression)
    (ev : LiteralValue → LiteralValue → Option Bool)
    (l r : BoundExpression) : BoundExpression :=
  match extract_literal l, extract_literal r with
  | some lv, some rv =>
    match ev lv rv with
    | some result => make_bool_literal result
    | none => build l r
  | _, _ => build l r

/-- `Optimizer::simplify_expression`. -/
def simplify_expression : BoundExpression → BoundExpression
  | .And l r =>
    let l := simplify_expression l
    let r := simplify_expression r
    if is_constant_true l then r
    else if is_constant_false l then l
    else if is_constant_true r then l
    else if is_constant_false r then r
    else .And l r
  | .Or l r =>
    let l := simplify_expression l
    let r := simplify_expression r
    if is_constant_true l then l
    else if is_constant_false l then r
    else if is_constant_true r then r
    else if is_constant_false r then l
    else .Or l r
  | .Not inner =>
    let inner := simplify_expression inner
    match inner with
    | .Not double_inner => double_inner
    | _ =>
      if is_constant_true inner then .Literal (.Boolean false) .Boolean
      else if is_constant_false inner then .Literal (.Boolean true) .Boolean
      else .Not inner
  | .Equal l r =>
    foldComparison .Equal evaluate_equal (simplify_expression l) (simplify_expression r)
  | .NotEqual l r =>
    foldComparison .NotEqual evaluate_not_equal (simplify_expression l)
      (simplify_expression r)
  | .GreaterThan l r =>
    foldComparison .GreaterThan evaluate_greater_than (simplify_expression l)
      (simplify_expression r)
  | .GreaterThanOrEqual l r =>
    foldComparison .GreaterThanOrEqual evaluate_greater_than_or_equal
      (simplify_expression l) (simplify_expression r)
  | .LessThan l r =>
    foldComparison .LessThan evaluate_less_than (simplify_expression l)
      (simplify_expression r)
  | .LessThanOrEqual l r =>
    foldComparison .LessThanOrEqual evaluate_less_than_or_equal (simplify_expression l)
      (simplify_expression r)
  | .ColumnRef name index type_ => .ColumnRef name index type_
  | .Literal value type_ => .Literal value type_

/-- `Optimizer::eliminate_dead_code`: simplify filter conditions; a filter
whose condition simplifies to literal `true` is removed, all other filters
(including literal `false`) are kept. -/
def eliminate_dead_code : LogicalOperator → LogicalOperator
  | .Projection exprs child => .Projection exprs (eliminate_dead_code child)
  | .Filter expression child =>
    let simplified := simplify_expression expression
    let child := eliminate_dead_code child
    if is_constant_true simplified then child
    else .Filter simplified child
  | .Get p cols mr => .Get p cols mr
  | .Limit l o child => .Limit l o (eliminate_dead_code child)
  | .Aggregate aggs child => .Aggregate aggs (eliminate_dead_code child)

/-- `Optimizer::collect_columns_from_expression` (a `HashSet` in the source;
modelled as a list used only through membership). -/
def collect_columns_from_expression : BoundExpression → List Nat
  | .Or l r => collect_columns_from_expression l ++ collect_columns_from_expression r
  | .And l r => collect_columns_from_expression l ++ collect_columns_from_expression r
  | .Not inner => collect_columns_from_expression inner
  | .Equal l r => collect_columns_from_expression l ++ collect_columns_from_expression r
  | .NotEqual l r => collect_columns_from_expression l ++ collect_columns_from_expression r
  | .GreaterThan l r =>
    collect_columns_from_expression l ++ collect_columns_from_expression r
  | .GreaterThanOrEqual l r =>
    collect_columns_from_expression l ++ collect_columns_from_expression r
  | .LessThan l r => collect_columns_from_expression l ++ collect_columns_from_expression r
  | .LessThanOrEqual l r =>
    collect_columns_from_expression l ++ collect_columns_from_expression r
  | .ColumnRef _ index _ => [index]
  | .Literal _ _ => []

/-- `Optimizer::collect_required_columns`. -/
def collect_required_columns : LogicalOperator → List Nat
  | .Projection exprs child =>
    (exprs.map collect_columns_from_expression).flatten ++ collect_required_columns child
  | .Filter expression child =>
    collect_columns_from_expression expression ++ collect_required_columns child
  | .Get _ _ _ => []
  | .Limit _ _ child => collect_required_columns child
  | .Aggregate aggs child =>
    (aggs.filterMap fun agg =>
      match agg with
      | .Count column => some column.index
      | .CountStar => none) ++ collect_required_columns child

/-- Lookup in the source's `HashMap<usize, usize>` built by inserting the
listed pairs in order (the last insertion for a key wins). -/
def hashMapGet (m : List (Nat × Nat)) (k : Nat) : Option Nat :=
  (m.reverse.find? fun p => p.1 == k).map (·.2)

/-- `Optimizer::build_index_mapping`: `original index → new position` from
the (pruned) Get's columns. -/
def build_index_mapping : LogicalOperator → List (Nat × Nat)
  | .Get _ cols _ =>
    (cols.zip (List.range cols.length)).map fun pc => (pc.1.index, pc.2)
  | .Filter _ child => build_index_mapping child
  | .Projection _ child => build_index_mapping child
  | .Limit _ _ child => build_index_mapping child
  | .Aggregate _ child => build_index_mapping child

/-- `Optimizer::remap_expression`. -/
def remap_expression (mapping : List (Nat × Nat)) : BoundExpression → BoundExpression
  | .ColumnRef name index type_ =>
    .ColumnRef name ((hashMapGet mapping index).getD index) type_
  | .Literal value type_ => .Literal value type_
  | .Equal l r => .Equal (remap_expression mapping l) (remap_expression mapping r)
  | .NotEqual l r => .NotEqual (remap_expression mapping l) (remap_expression mapping r)
  | .GreaterThan l r =>
    .GreaterThan (remap_expression mapping l) (remap_expression mapping r)
  | .GreaterThanOrEqual l r =>
    .GreaterThanOrEqual (remap_expression mapping l) (remap_expression mapping r)
  | .LessThan l r => .LessThan (remap_expression mapping l) (remap_expression mapping r)
  | .LessThanOrEqual l r =>
    .LessThanOrEqual (remap_expression mapping l) (remap_expression mapping r)
  | .And l r => .And (remap_expression mapping l) (remap_expression mapping r)
  | .Or l r => .Or (remap_expression mapping l) (remap_expression mapping r)
  | .Not inner => .Not (remap_expression mapping inner)

/-- `Optimizer::remap_aggregate`. -/
def remap_aggregate (mapping : List (Nat × Nat)) :
    BoundAggregateExpression → BoundAggregateExpression
  | .CountStar => .CountStar
  | .Count column =>
    match hashMapGet mapping column.index with
    | some new_index => .Count { column with index := new_index }
    | none => .Count column

/-- `Optimizer::apply_projection_pushdown`. -/
def apply_projection_pushdown (required_columns : List Nat) :
    LogicalOperator → LogicalOperator
  | .Projection exprs child =>
    let child := apply_projection_pushdown required_columns child
    let mapping := build_index_mapping child
    .Projection (exprs.map (remap_expression mapping)) child
  | .Filter expression child =>
    let child := apply_projection_pushdown required_columns child
    let mapping := build_index_mapping child
    .Filter (remap_expression mapping expression) child
  | .Get p cols mr =>
    .Get p (cols.filter fun col => required_columns.contains col.index) mr
  | .Limit l o child => .Limit l o (apply_projection_pushdown required_columns child)
  | .Aggregate aggs child =>
    let child := apply_projection_pushdown required_columns child
    let mapping := build_index_mapping child
    .Aggregate (aggs.map (remap_aggregate mapping)) child

/-- `Optimizer::is_simple_scan_chain`. -/
def is_simple_scan_chain : LogicalOperator → Bool
  | .Get _ _ _ => true
  | .Filter _ child => is_simple_scan_chain child
  | .Projection _ child => is_simple_scan_chain child
  | .Limit _ _ _ => false
  | .Aggregate _ _ => false

/-- `Optimizer::has_filters_in_chain`. -/
def has_filters_in_chain : LogicalOperator → Bool
  | .Get _ _ _ => false
  | .Filter _ _ => true
  | .Projection _ child => has_filters_in_chain child
  | .Limit _ _ _ => false
  | .Aggregate _ _ => false

/-- `Optimizer::calculate_max_rows` on a Limit node's fields. -/
def calculate_max_rows (limit offset : Option Nat) (child : LogicalOperator) :
    Option Nat :=
  if ¬ is_simple_scan_chain child then none
  else
    let limit_val := limit.getD usizeMAX
    let offset_val := offset.getD 0
    if limit_val = usizeMAX then none
    else
      let base_rows := satAdd limit_val offset_val
      let safety_factor := if has_filters_in_chain child then 10 else 1
      some (satMul base_rows safety_factor)

/-- `Optimizer::set_max_rows_on_get`. -/
def set_max_rows_on_get (max_rows : Nat) : LogicalOperator → LogicalOperator
  | .Get p cols _ => .Get p cols (some max_rows)
  | .Filter e child => .Filter e (set_max_rows_on_get max_rows child)
  | .Projection es child => .Projection es (set_max_rows_on_get max_rows child)
  | .Limit l o child => .Limit l o child
  | .Aggregate a child => .Aggregate a child

/-- `Optimizer::push_down_limit`. -/
def push_down_limit : LogicalOperator → LogicalOperator
  | .Limit l o child =>
    match calculate_max_rows l o child with
    | some max_rows => .Limit l o (set_max_rows_on_get max_rows child)
    | none => .Limit l o (push_down_limit child)
  | .Projection es child => .Projection es (push_down_limit child)
  | .Filter e child => .Filter e (push_down_limit child)
  | .Get p cols mr => .Get p cols mr
  | .Aggregate a child => .Aggregate a (push_down_limit child)

/-- `Optimizer::optimize`: the three passes in order. -/
def optimize (plan : LogicalOperator) : LogicalOperator :=
  let plan := eliminate_dead_code plan
  let required_columns := collect_required_columns plan
  let plan := apply_projection_pushdown required_columns plan
  push_down_limit plan

end Optimizer

/-! ## Value parsing (`operators/scan.rs::parse_value`) -/

/-- The Unicode `White_Space` code points removed by Rust's `str::trim`. -/
def isRustWhitespace (c : Char) : Bool :=
  c = '\u0009' || c = '\u000a' || c = '\u000b' || c = '\u000c' || c = '\u000d' ||
  c = '\u0020' || c = '\u0085' || c = '\u00a0' || c = '\u1680' ||
  ('\u2000' ≤ c && c ≤ '\u200a') ||
  c = '\u2028' || c = '\u2029' || c = '\u202f' || c = '\u205f' || c = '\u3000'

/-- Rust `str::trim`: strip whitespace from both ends. -/
def rustTrim (s : String) : String :=
  ⟨((s.data.dropWhile isRustWhitespace).reverse.dropWhile isRustWhitespace).reverse⟩

/-- ASCII lower-casing of a character (`u8::to_ascii_lowercase`). -/
def asciiLower (c : Char) : Char :=
  if 'A' ≤ c ∧ c ≤ 'Z' then Char.ofNat (c.toNat + 32) else c

/-- Rust `str::eq_ignore_ascii_case`. -/
def eqIgnoreAsciiCase (a b : String) : Bool :=
  a.data.map asciiLower == b.data.map asciiLower

/-- Decimal digit run → value; `none` unless non-empty and all digits. -/
def parseDigits (cs : List Char) : Option Nat :=
  if cs.isEmpty then none
  else if cs.all (fun c => '0' ≤ c && c ≤ '9') then
    some (cs.foldl (fun acc c => 10 * acc + (c.toNat - '0'.toNat)) 0)
  else none

/-- Rust `i64::from_str` (`"123".parse::<i64>()`): optional sign, digits,
range check. -/
def parse_i64 (s : String) : Option Int :=
  match s.data with
  | '+' :: rest =>
    (parseDigits rest).bind fun n =>
      if n ≤ 2 ^ 63 - 1 then some (n : Int) else none
  | '-' :: rest =>
    (parseDigits rest).bind fun n =>
      if n ≤ 2 ^ 63 then some (-(n : Int)) else none
  | cs =>
    (parseDigits cs).bind fun n =>
      if n ≤ 2 ^ 63 - 1 then some (n : Int) else none

/-- Split a char list at the first exponent marker (`e`/`E`). -/
def splitAtExp (cs : List Char) : List Char × Option (List Char) :=
  match cs.findIdx? (fun c => c = 'e' || c = 'E') with
  | some i => (cs.take i, some (cs.drop (i + 1)))
  | none => (cs, none)

/-- Split a mantissa at the first `.`. -/
def splitAtDot (cs : List Char) : List Char × Option (List Char) :=
  match cs.findIdx? (· = '.') with
  | some i => (cs.take i, some (cs.drop (i + 1)))
  | none => (cs, none)

/-- Digit-run value allowing the empty run (as 0), `none` on a non-digit. -/
def parseDigitsOpt (cs : List Char) : Option (Nat × Nat) :=
  if cs.all (fun c => '0' ≤ c && c ≤ '9') then
    some (cs.foldl (fun acc c => 10 * acc + (c.toNat - '0'.toNat)) 0, cs.length)
  else none

/-- Decimal part of Rust `f64::from_str`: `digits [. digits] [e [sign]
digits]` with at least one mantissa digit; the value is computed exactly as
a rational (`f64` rounding is not modelled; no claim depends on it). -/
def parseF64Dec (neg : Bool) (cs : List Char) : Option F64 :=
  let me := splitAtExp cs
  let id := splitAtDot me.1
  match parseDigitsOpt id.1, parseDigitsOpt (id.2.getD []) with
  | some ip, some fp =>
    if ip.2 + fp.2 = 0 then none
    else
      let mant : Rat := ((ip.1 * 10 ^ fp.2 + fp.1 : Nat) : Rat) / ((10 ^ fp.2 : Nat) : Rat)
      let signedMant := if neg then -mant else mant
      match me.2 with
      | none => some (.finite signedMant)
      | some expPart =>
        let se :=
          match expPart with
          | '+' :: rest => (false, rest)
          | '-' :: rest => (true, rest)
          | rest => (false, rest)
        match parseDigits se.2 with
        | some e =>
          some (.finite (if se.1 then signedMant / ((10 ^ e : Nat) : Rat)
            else signedMant * ((10 ^ e : Nat) : Rat)))
        | none => none
  | _, _ => none

/-- Rust `f64::from_str`: optional sign, then `inf`/`infinity`/`nan`
(ASCII case-insensitive) or a decimal number. -/
def parse_f64 (s : String) : Option F64 :=
  let sc :=
    match s.data with
    | '+' :: rest => (false, rest)
    | '-' :: rest => (true, rest)
    | cs => (false, cs)
  let low := sc.2.map asciiLower
  if low = "inf".data || low = "infinity".data then some (.infinite sc.1)
  else if low = "nan".data then some .nan
  else parseF64Dec sc.1 sc.2

/-- `PhysicalScan::parse_value`: trim; empty → Null; else parse per column
type with parse failures → Null; Varchar keeps the trimmed text; a `Null`
column type always yields Null. -/
def parse_value (value : String) (column_type : ColumnType) : Value :=
  let trimmed := rustTrim value
  if trimmed = "" then .Null
  else
    match column_type with
    | .Integer =>
      match parse_i64 trimmed with
      | some i => .Integer i
      | none => .Null
    | .Float =>
      match parse_f64 trimmed with
      | some f => .Float f
      | none => .Null
    | .Boolean =>
      if eqIgnoreAsciiCase trimmed "true" then .Boolean true
      else if eqIgnoreAsciiCase trimmed "false" then .Boolean false
      else .Null
    | .Varchar => .Varchar trimmed
    | .Null => .Null

/-- Build the batch a scanner produces from a list of already-parsed rows
(each CSV record is appended via `DataChunk::append_row`). -/
def chunkOfRows (types : List ColumnType) (rows : List (List Value)) : DataChunk :=
  rows.foldl DataChunk.append_row (DataChunk.new types DataChunk.STANDARD_VECTOR_SIZE)

/-! ## Observation functions used by the theorem statements -/

/-- The `max_rows` of the plan's (unique) Get leaf. -/
def getMaxRows : LogicalOperator → Option Nat
  | .Get _ _ max_rows => max_rows
  | .Filter _ child => getMaxRows child
  | .Projection _ child => getMaxRows child
  | .Limit _ _ child => getMaxRows child
  | .Aggregate _ child => getMaxRows child

/-- The columns of the plan's (unique) Get leaf. -/
def getColumns : LogicalOperator → List Column
  | .Get _ columns _ => columns
  | .Filter _ child => getColumns child
  | .Projection _ child => getColumns child
  | .Limit _ _ child => getColumns child
  | .Aggregate _ child => getColumns child

/-- Whether the plan contains a Limit node. -/
def hasLimitNode : LogicalOperator → Bool
  | .Get _ _ _ => false
  | .Filter _ child => hasLimitNode child
  | .Projection _ child => hasLimitNode child
  | .Limit _ _ _ => true
  | .Aggregate _ child => hasLimitNode child

/-- Total row count of a batch sequence as the front-end counts it
(selection length if present, else physical count). -/
def rowsOf (cs : List DataChunk) : Nat := (cs.map DataChunk.selected_count).sum

/-- In-order column indices of every `ColumnRef` occurrence in an
expression (spec-side observation for the remapping claims). -/
def exprRefIndices : BoundExpression → List Nat
  | .Or l r => exprRefIndices l ++ exprRefIndices r
  | .And l r => exprRefIndices l ++ exprRefIndices r
  | .Not inner => exprRefIndices inner
  | .Equal l r => exprRefIndices l ++ exprRefIndices r
  | .NotEqual l r => exprRefIndices l ++ exprRefIndices r
  | .GreaterThan l r => exprRefIndices l ++ exprRefIndices r
  | .GreaterThanOrEqual l r => exprRefIndices l ++ exprRefIndices r
  | .LessThan l r => exprRefIndices l ++ exprRefIndices r
  | .LessThanOrEqual l r => exprRefIndices l ++ exprRefIndices r
  | .ColumnRef _ index _ => [index]
  | .Literal _ _ => []

/-- In-order column indices referenced above the Get: `ColumnRef`s in
Projection and Filter expressions plus `Count` aggregate columns
(spec-side observation for the projection-pushdown claims). -/
def planRefIndices : LogicalOperator → List Nat
  | .Get _ _ _ => []
  | .Filter expression child => exprRefIndices expression ++ planRefIndices child
  | .Projection exprs child => (exprs.map exprRefIndices).flatten ++ planRefIndices child
  | .Limit _ _ child => planRefIndices child
  | .Aggregate aggs child =>
    (aggs.filterMap fun agg =>
      match agg with
      | .Count column => some column.index
      | .CountStar => none) ++ planRefIndices child

/-! ## Proof-support definitions (spec-side observations) -/

/-- Number of 1 bits of a natural number (reference bit count). -/
def bitcount (w : Nat) : Nat :=
  if h : w = 0 then 0 else w % 2 + bitcount (w / 2)
termination_by w
decreasing_by exact Nat.div_lt_self (by omega) (by omega)

/-- Number of 1 bits among the lowest `k` bits. -/
def bitsTo (w : Nat) : Nat → Nat
  | 0 => 0
  | k + 1 => w % 2 + bitsTo (w / 2) k

/-- Total bit count of the first `fw` words of a word list. -/
def sumFullWords (ws : List Nat) : Nat → Nat
  | 0 => 0
  | q + 1 => sumFullWords ws q + bitcount (ws.getD q 0)

/-- Reference count of valid bits among the first `n` indices of a bitmap. -/
def validCount (bm : Bitmap) : Nat → Nat
  | 0 => 0
  | n + 1 => validCount bm n + (bm.is_valid n).toNat

/-- Well-formedness of a bitmap as produced by the engine: enough words for
the tracked bits, and every word fits in a `u64`. -/
def Bitmap.wfm (bm : Bitmap) : Prop :=
  (bm.len + 63) / 64 ≤ bm.words.length ∧ ∀ w ∈ bm.words, w < 2 ^ 64

/-- Whether a value may be stored in a column of the given type (`Null` is
storable everywhere; a `Null`-typed column stores only Null). -/
def typeMatches : ColumnType → Value → Bool
  | _, .Null => true
  | .Integer, .Integer _ => true
  | .Float, .Float _ => true
  | .Boolean, .Boolean _ => true
  | .Varchar, .Varchar _ => true
  | _, _ => false

/-- Number of rows whose column `p` is not Null. -/
def nonNullCount (rows : List (List Value)) (p : Nat) : Nat :=
  rows.countP fun r => r.getD p .Null != .Null

/-!
# Theorems

Helper lemmas first, then one theorem per claim (with witnesses and
counterexamples where the claim status requires them).
-/

/-! ## Frame lemmas for selection-vector edits -/

theorem apply_offset_columns (c : DataChunk) (n : Nat) :
    (c.apply_offset n).columns = c.columns := by
  unfold DataChunk.apply_offset
  split
  · rfl
  · cases c.selection <;> simp only <;> split <;> rfl

theorem apply_offset_count (c : DataChunk) (n : Nat) :
    (c.apply_offset n).count = c.count := by
  unfold DataChunk.apply_offset
  split
  · rfl
  · cases c.selection <;> simp only <;> split <;> rfl

theorem apply_offset_capacity (c : DataChunk) (n : Nat) :
    (c.apply_offset n).capacity = c.capacity := by
  unfold DataChunk.apply_offset
  split
  · rfl
  · cases c.selection <;> simp only <;> split <;> rfl

theorem truncate_columns (c : DataChunk) (n : Nat) :
    (c.truncate n).columns = c.columns := by
  unfold DataChunk.truncate
  split
  · rfl
  · cases c.selection <;> rfl

theorem truncate_count (c : DataChunk) (n : Nat) :
    (c.truncate n).count = c.count := by
  unfold DataChunk.truncate
  split
  · rfl
  · cases c.selection <;> rfl

theorem truncate_capacity (c : DataChunk) (n : Nat) :
    (c.truncate n).capacity = c.capacity := by
  unfold DataChunk.truncate
  split
  · rfl
  · cases c.selection <;> rfl

/-- C6: For every batch, applying the OFFSET operation (drop first n rows)
or the LIMIT truncation (keep first n rows) mutates only the batch's
selection vector: the column vectors (and hence their validity bitmaps),
the physical row count `count`, and `capacity` are unchanged by
`apply_offset` and `truncate`. -/
theorem C6_offset_truncate_touch_only_selection (c : DataChunk) (n m : Nat) :
    ((c.apply_offset n).columns = c.columns ∧ (c.apply_offset n).count = c.count ∧
      (c.apply_offset n).capacity = c.capacity) ∧
    ((c.truncate m).columns = c.columns ∧ (c.truncate m).count = c.count ∧
      (c.truncate m).capacity = c.capacity) :=
  ⟨⟨apply_offset_columns c n, apply_offset_count c n, apply_offset_capacity c n⟩,
    ⟨truncate_columns c m, truncate_count c m, truncate_capacity c m⟩⟩

/-- C1 (code bug): the runtime filter keeps a row whose equality compares
NULL with NULL.  `evaluate_predicate` yields `true` on a row whose (only)
column is NULL when the predicate is `col = col`, and the filter's
selection vector then contains that row; yet the optimizer's own constant
folding evaluates the same comparison `NULL = NULL` to literal `false`
(so an optimized `WHERE NULL = NULL` matches nothing while the runtime
evaluation of the same predicate matches every row). -/
theorem C1_null_equality_row_is_kept :
    evaluate_predicate (.Equal (.ColumnRef "a" 0 .Integer) (.ColumnRef "a" 0 .Integer))
      ((DataChunk.new [.Integer] 2048).append_row [.Null]) 0 = true ∧
    (filterExecute (.Equal (.ColumnRef "a" 0 .Integer) (.ColumnRef "a" 0 .Integer))
      ((DataChunk.new [.Integer] 2048).append_row [.Null])).selection =
        some ⟨[0]⟩ ∧
    Optimizer.simplify_expression (.Equal (.Literal .Null .Null) (.Literal .Null .Null)) =
      .Literal (.Boolean false) .Boolean ∧
    evaluate_predicate (.Equal (.Literal .Null .Null) (.Literal .Null .Null))
      ((DataChunk.new [.Integer] 2048).append_row [.Null]) 0 = true := by
  refine ⟨by decide, by decide, by decide, by decide⟩

/-! ## C10: buffer pool acquire -/

/-- C10 counterexample: the claim says the handed-out chunk's column
vectors "match exactly the requested column types in order", but a
requested `Null` column type produces an `Integer`-typed vector. -/
theorem C10_counterexample :
    ((BufferPool.get_chunk_with_schema ⟨[], 100, DataChunk.STANDARD_VECTOR_SIZE⟩
      [.Null]).1.columns.map Vector.column_type) = [ColumnType.Integer] ∧
    ColumnType.Integer ≠ ColumnType.Null := by
  refine ⟨by decide, by decide⟩

theorem vector_new_column_type (t : ColumnType) (cap : Nat) :
    (Vector.new t cap).column_type = if t = .Null then .Integer else t := by
  cases t <;> rfl

/-- C10 (amended): every batch handed out by the schema-configured acquire
is empty and clean — on both the pooled-reuse path and the fresh path the
result is exactly `DataChunk.new` of the requested types at the pool's
chunk size: row count 0, no selection vector, and one fresh vector per
requested column type in order (a requested `Null` column type yielding an
Integer-typed vector, as `Vector::new` maps `Null` to `Integer`).  Hence
operators that return early without writing their output leave an empty
batch. -/
theorem C10_acquired_chunk_clean (p : BufferPool) (types : List ColumnType) :
    (p.get_chunk_with_schema types).1 = DataChunk.new types p.chunk_size ∧
    (p.get_chunk_with_schema types).1.count = 0 ∧
    (p.get_chunk_with_schema types).1.selection = none ∧
    ((p.get_chunk_with_schema types).1.columns.map Vector.column_type) =
      types.map (fun t => if t = .Null then .Integer else t) := by
  have hmain : (p.get_chunk_with_schema types).1 = DataChunk.new types p.chunk_size := by
    unfold BufferPool.get_chunk_with_schema
    cases hp : p.pool with
    | nil => rfl
    | cons c rest => simp [DataChunk.reset, DataChunk.new]
  refine ⟨hmain, ?_, ?_, ?_⟩
  · rw [hmain]; rfl
  · rw [hmain]; rfl
  · rw [hmain]
    simp only [DataChunk.new, List.map_map]
    exact List.map_congr_left fun t _ => vector_new_column_type t p.chunk_size

/-! ## C3: scanner value parsing -/

/-- C3 counterexample: the claim says a trimmed field equal to `"null"`
(case-insensitively) converts to Null regardless of the column type, in
particular for Varchar columns; but `parse_value` has no such case and
yields the text `"null"` for a Varchar column. -/
theorem C3_counterexample :
    parse_value "null" .Varchar = .Varchar "null" ∧
    Value.Varchar "null" ≠ .Null := by
  refine ⟨by decide, by decide⟩

theorem dropWhile_idem {α : Type} (p : α → Bool) (l : List α) :
    (l.dropWhile p).dropWhile p = l.dropWhile p := by
  cases h : l.dropWhile p with
  | nil => rfl
  | cons a t =>
    have hnp := List.head?_dropWhile_not p l
    rw [h] at hnp
    simp only [List.head?_cons] at hnp
    exact List.dropWhile_cons_of_neg (by simp [hnp])

theorem dropWhile_trim_fixed {α : Type} (p : α → Bool) (l : List α) :
    ((l.dropWhile p).reverse.dropWhile p).reverse.dropWhile p
      = ((l.dropWhile p).reverse.dropWhile p).reverse := by
  obtain ⟨t, ht⟩ := List.dropWhile_suffix (l := (l.dropWhile p).reverse) p
  cases hv : ((l.dropWhile p).reverse.dropWhile p).reverse with
  | nil => rfl
  | cons a v =>
    have hu : l.dropWhile p = a :: (v ++ t.reverse) := by
      have := congrArg List.reverse ht
      simp only [List.reverse_append, List.reverse_reverse] at this
      rw [← this, hv]
      simp
    have hnp := List.head?_dropWhile_not p l
    rw [hu] at hnp
    simp only [List.head?_cons] at hnp
    exact List.dropWhile_cons_of_neg (by simp [hnp])

theorem rustTrim_idem (s : String) : rustTrim (rustTrim s) = rustTrim s := by
  unfold rustTrim
  exact congrArg String.mk
    (by simp only [dropWhile_trim_fixed, List.reverse_reverse, dropWhile_idem])

/-- C3 (amended): the scanner's value conversion first trims the field
(so conversion only depends on the trimmed text, and trimming is
idempotent); a trimmed field that is empty converts to Null regardless of
the column's type; otherwise conversion follows the column type, with
parse failures for Integer, Float and Boolean producing Null and a `Null`
column type always producing Null — but the text `"null"` is not
special-cased: for a Varchar column it converts to the Varchar value
`"null"`, not to Null (for Integer/Float/Boolean it becomes Null only
because it fails to parse). -/
theorem C3_trim_then_parse_by_type :
    (∀ s t, parse_value s t = parse_value (rustTrim s) t) ∧
    (∀ s t, rustTrim s = "" → parse_value s t = .Null) ∧
    (∀ s, parse_value s .Integer = .Null ↔
      (rustTrim s = "" ∨ parse_i64 (rustTrim s) = none)) ∧
    (∀ s, parse_value s .Float = .Null ↔
      (rustTrim s = "" ∨ parse_f64 (rustTrim s) = none)) ∧
    (∀ s, parse_value s .Boolean = .Null ↔
      (rustTrim s = "" ∨ (eqIgnoreAsciiCase (rustTrim s) "true" = false ∧
        eqIgnoreAsciiCase (rustTrim s) "false" = false))) ∧
    (∀ s, rustTrim s ≠ "" → parse_value s .Varchar = .Varchar (rustTrim s)) ∧
    (∀ s, parse_value s .Null = .Null) := by
  refine ⟨?_, ?_, ?_, ?_, ?_, ?_, ?_⟩
  · intro s t
    unfold parse_value
    rw [rustTrim_idem]
  · intro s t h
    unfold parse_value
    rw [h]
    rfl
  · intro s
    unfold parse_value
    by_cases h : rustTrim s = ""
    · simp [h]
    · simp only [h, if_false]
      cases hp : parse_i64 (rustTrim s) <;> simp [h, hp]
  · intro s
    unfold parse_value
    by_cases h : rustTrim s = ""
    · simp [h]
    · simp only [h, if_false]
      cases hp : parse_f64 (rustTrim s) <;> simp [h, hp]
  · intro s
    unfold parse_value
    by_cases h : rustTrim s = ""
    · simp [h]
    · simp only [h, if_false]
      by_cases ht : eqIgnoreAsciiCase (rustTrim s) "true" = true
      · simp [ht, h]
      · by_cases hf : eqIgnoreAsciiCase (rustTrim s) "false" = true
        · simp [ht, hf, h]
        · simp [ht, hf, h]
  · intro s h
    unfold parse_value
    simp [h]
  · intro s
    unfold parse_value
    by_cases h : rustTrim s = "" <;> simp [h]

theorem C3_witness :
    rustTrim " null " ≠ "" ∧ parse_value " null " .Varchar = .Varchar "null" :=
  ⟨by decide, by
    have h := C3_trim_then_parse_by_type.2.2.2.2.2.1 " null " (by decide)
    simpa using h⟩

/-! ## C8: limit pushdown -/

theorem set_max_rows_on_get_maxRows (m : Nat) (p : LogicalOperator)
    (h : Optimizer.is_simple_scan_chain p = true) :
    getMaxRows (Optimizer.set_max_rows_on_get m p) = some m := by
  induction p with
  | Get _ _ _ => rfl
  | Filter _ child ih =>
    exact ih (by simpa [Optimizer.is_simple_scan_chain] using h)
  | Projection _ child ih =>
    exact ih (by simpa [Optimizer.is_simple_scan_chain] using h)
  | Limit _ _ _ _ => simp [Optimizer.is_simple_scan_chain] at h
  | Aggregate _ _ _ => simp [Optimizer.is_simple_scan_chain] at h

theorem push_down_limit_no_limit (p : LogicalOperator)
    (h : hasLimitNode p = false) : Optimizer.push_down_limit p = p := by
  induction p with
  | Get _ _ _ => rfl
  | Filter e child ih =>
    simp only [Optimizer.push_down_limit]
    rw [ih (by simpa [hasLimitNode] using h)]
  | Projection es child ih =>
    simp only [Optimizer.push_down_limit]
    rw [ih (by simpa [hasLimitNode] using h)]
  | Limit _ _ _ _ => simp [hasLimitNode] at h
  | Aggregate a child ih =>
    simp only [Optimizer.push_down_limit]
    rw [ih (by simpa [hasLimitNode] using h)]

/-- C8 (amended): for a Limit whose limit value is set and below
`usize::MAX`, over a simple scan chain (only Filters/Projections above a
single Get), the optimizer's limit pushdown sets the Get's `max_rows` to
`saturating((limit + offset) × factor)` with factor 10 when the chain
contains a Filter and 1 otherwise; when the limit is absent, when the limit
equals `usize::MAX` (`calculate_max_rows` returns `None` there), or when
the chain is not a simple scan chain (each time with no nested Limit in the
subtree, as in every planner-produced plan), the Get's `max_rows` is left
unchanged (in particular unset when the planner left it unset). -/
theorem C8_limit_pushdown_max_rows (l o : Option Nat) (child : LogicalOperator) :
    (∀ k, l = some k → k ≠ usizeMAX → Optimizer.is_simple_scan_chain child = true →
      getMaxRows (Optimizer.push_down_limit (.Limit l o child)) =
        some (satMul (satAdd k (o.getD 0))
          (if Optimizer.has_filters_in_chain child then 10 else 1))) ∧
    (l = none → hasLimitNode child = false →
      getMaxRows (Optimizer.push_down_limit (.Limit l o child)) = getMaxRows child) ∧
    (Optimizer.is_simple_scan_chain child = false → hasLimitNode child = false →
      getMaxRows (Optimizer.push_down_limit (.Limit l o child)) = getMaxRows child) ∧
    (l = some usizeMAX → hasLimitNode child = false →
      getMaxRows (Optimizer.push_down_limit (.Limit l o child)) = getMaxRows child) := by
  refine ⟨?_, ?_, ?_, ?_⟩
  · intro k hk hmax hsimple
    have hcalc : Optimizer.calculate_max_rows l o child =
        some (satMul (satAdd k (o.getD 0))
          (if Optimizer.has_filters_in_chain child then 10 else 1)) := by
      unfold Optimizer.calculate_max_rows
      rw [hk]
      simp [hsimple, hmax]
    simp only [Optimizer.push_down_limit, hcalc]
    exact set_max_rows_on_get_maxRows _ child hsimple
  · intro hk hnl
    have hcalc : Optimizer.calculate_max_rows l o child = none := by
      unfold Optimizer.calculate_max_rows
      rw [hk]
      simp
    simp only [Optimizer.push_down_limit, hcalc]
    show getMaxRows (Optimizer.push_down_limit child) = getMaxRows child
    rw [push_down_limit_no_limit child hnl]
  · intro hsimple hnl
    have hcalc : Optimizer.calculate_max_rows l o child = none := by
      unfold Optimizer.calculate_max_rows
      simp [hsimple]
    simp only [Optimizer.push_down_limit, hcalc]
    show getMaxRows (Optimizer.push_down_limit child) = getMaxRows child
    rw [push_down_limit_no_limit child hnl]
  · intro hk hnl
    have hcalc : Optimizer.calculate_max_rows l o child = none := by
      unfold Optimizer.calculate_max_rows
      rw [hk]
      by_cases hsimple : Optimizer.is_simple_scan_chain child = true
      · simp [hsimple]
      · simp [hsimple]
    simp only [Optimizer.push_down_limit, hcalc]
    show getMaxRows (Optimizer.push_down_limit child) = getMaxRows child
    rw [push_down_limit_no_limit child hnl]

/-- Counterexample to C8 as stated: `LIMIT 18446744073709551615`
(`usize::MAX`, which the parser accepts) over a simple scan chain has its
limit value set and the chain simple, yet `calculate_max_rows` returns
`None` and the Get's `max_rows` stays unset, where the claimed saturating
formula `(limit + offset) × 1` demands `usize::MAX`. -/
theorem C8_counterexample :
    Optimizer.is_simple_scan_chain (.Get "f.csv" [] none) = true ∧
    Optimizer.calculate_max_rows (some usizeMAX) none (.Get "f.csv" [] none) = none ∧
    getMaxRows (Optimizer.push_down_limit
      (.Limit (some usizeMAX) none (.Get "f.csv" [] none))) = none ∧
    satMul (satAdd usizeMAX ((none : Option Nat).getD 0))
      (if Optimizer.has_filters_in_chain (.Get "f.csv" [] none) then 10 else 1) =
      usizeMAX := by
  refine ⟨rfl, ?_, ?_, ?_⟩ <;> decide

/-- Witness for C8 at the spec's example: `LIMIT 1` over one Filter gives
`max_rows = 10`. -/
theorem C8_witness :
    getMaxRows (Optimizer.push_down_limit (.Limit (some 1) none
      (.Filter (.GreaterThanOrEqual (.ColumnRef "score" 4 .Float)
        (.Literal (.Float (.finite 80)) .Float))
        (.Get "ppl.csv" [] none)))) = some 10 := by
  have h := (C8_limit_pushdown_max_rows (some 1) none
    (.Filter (.GreaterThanOrEqual (.ColumnRef "score" 4 .Float)
      (.Literal (.Float (.finite 80)) .Float))
      (.Get "ppl.csv" [] none))).1 1 rfl (by decide) (by decide)
  rw [h]
  decide

/-! ## C2: the executor and downstream results -/

theorem get_chunk_with_schema_fst (p : BufferPool) (types : List ColumnType) :
    (p.get_chunk_with_schema types).1 = DataChunk.new types p.chunk_size := by
  unfold BufferPool.get_chunk_with_schema
  cases hp : p.pool with
  | nil => rfl
  | cons c rest => simp [DataChunk.reset, DataChunk.new]

theorem get_chunk_with_schema_chunk_size (p : BufferPool) (types : List ColumnType) :
    (p.get_chunk_with_schema types).2.chunk_size = p.chunk_size := by
  unfold BufferPool.get_chunk_with_schema
  cases p.pool <;> rfl

theorem acquireAll_fst (pool : BufferPool) (ss : List (List ColumnType)) :
    (acquireAll pool ss).1 = ss.map fun s => DataChunk.new s pool.chunk_size := by
  induction ss generalizing pool with
  | nil => rfl
  | cons s ss ih =>
    simp only [acquireAll, List.map]
    rw [get_chunk_with_schema_fst, ih, get_chunk_with_schema_chunk_size]

/-- On an empty input, an operator's new state, its result, and the
emptiness of its output do not depend on the provided (empty) output
buffer. -/
theorem execOp_empty_input_buffer_invariance (op : OpState) (out1 out2 : DataChunk)
    (h1 : out1.count = 0) (h2 : out2.count = 0) :
    (execOp op DataChunk.empty out1).1 = (execOp op DataChunk.empty out2).1 ∧
    (execOp op DataChunk.empty out1).2.2 = (execOp op DataChunk.empty out2).2.2 ∧
    (execOp op DataChunk.empty out1).2.1.is_empty =
      (execOp op DataChunk.empty out2).2.1.is_empty := by
  cases op with
  | source st =>
    cases hc : st.chunks with
    | nil => simp [execOp, sourceExecute, hc, DataChunk.is_empty, DataChunk.reset]
    | cons c rest => simp [execOp, sourceExecute, hc]
  | filter p => exact ⟨rfl, rfl, rfl⟩
  | projection es => exact ⟨rfl, rfl, rfl⟩
  | limitOp st =>
    simp only [execOp, limitExecute]
    split
    · simp [DataChunk.is_empty, h1, h2]
    · simp [DataChunk.is_empty, DataChunk.empty, h1, h2]
  | aggregate st =>
    simp only [execOp, aggExecute]
    split
    · simp [DataChunk.is_empty, DataChunk.reset]
    · split
      · simp [DataChunk.is_empty, DataChunk.reset]
      · simp [DataChunk.is_empty, DataChunk.empty]

/-- C2 (amended): the executor does not inspect downstream operators'
results at all — its loop control (whether another iteration runs, hence
whether the source operator is called again, and the final source state)
depends only on the source operator: for the same source, fuel and schema
list, runs with arbitrary different downstream operator lists (and pools,
collected results and traces) perform exactly the same number of source
calls.  In particular a downstream Limit returning `Finished` does not
stop the executor; early termination of the scan is achieved only through
limit pushdown (`max_rows`), not by the executor. -/
theorem C2_executor_ignores_downstream (fuel : Nat) (schemas : List (List ColumnType))
    (src : OpState) (ds1 ds2 : List OpState) (pool1 pool2 : BufferPool) (sf : Bool)
    (res1 res2 : List DataChunk) (it : Nat) (tr1 tr2 : List (List ExecuteResult)) :
    (executeLoop fuel schemas src ds1 pool1 sf res1 it tr1).iterations =
      (executeLoop fuel schemas src ds2 pool2 sf res2 it tr2).iterations ∧
    (executeLoop fuel schemas src ds1 pool1 sf res1 it tr1).src =
      (executeLoop fuel schemas src ds2 pool2 sf res2 it tr2).src := by
  induction fuel generalizing src ds1 ds2 pool1 pool2 sf res1 res2 it tr1 tr2 with
  | zero => exact ⟨rfl, rfl⟩
  | succ fuel ih =>
    cases schemas with
    | nil =>
      simp only [executeLoop, acquireAll]
      exact ⟨by trivial, by trivial⟩
    | cons s ss =>
      simp only [executeLoop, acquireAll_fst, List.map]
      obtain ⟨hsrc, hres, hemp⟩ := execOp_empty_input_buffer_invariance src
        (DataChunk.new s pool1.chunk_size) (DataChunk.new s pool2.chunk_size) rfl rfl
      rw [hsrc, hres, hemp]
      split
      · exact ⟨by trivial, by trivial⟩
      · split
        · exact ⟨by trivial, by trivial⟩
        · exact ih _ _ _ _ _ _ _ _ _ _ _

/-- C2 counterexample: a source of two one-row batches under `LIMIT 1`.
During the first push the Limit operator already returns `Finished` (the
iteration trace of downstream results starts with `[Finished]`), yet the
executor performs three source calls in total — it keeps calling the
source after a downstream Limit has finished, contradicting the claim
that it never calls the source again. -/
theorem C2_counterexample :
    (PipelineExecutor.execute 5 [[.Integer], [.Integer]]
      (.source ⟨[(DataChunk.new [.Integer] 2048).append_row [.Integer 1],
        (DataChunk.new [.Integer] 2048).append_row [.Integer 2]]⟩)
      [.limitOp (LimitState.new (some 1) none)]).dsTrace.getD 0 [] =
        [.Finished] ∧
    (PipelineExecutor.execute 5 [[.Integer], [.Integer]]
      (.source ⟨[(DataChunk.new [.Integer] 2048).append_row [.Integer 1],
        (DataChunk.new [.Integer] 2048).append_row [.Integer 2]]⟩)
      [.limitOp (LimitState.new (some 1) none)]).iterations = 3 := by
  refine ⟨by decide, by decide⟩

/-! ## Bit-level lemmas (towards `count_valid` correctness) -/

theorem and_two_pow_ne_zero (w b : Nat) : ((w &&& (1 <<< b)) != 0) = w.testBit b := by
  rw [Nat.one_shiftLeft]
  cases h : w.testBit b with
  | false =>
    have hz : w &&& 2 ^ b = 0 := by
      apply Nat.eq_of_testBit_eq
      intro j
      simp only [Nat.testBit_and, Nat.zero_testBit]
      by_cases hj : b = j
      · subst hj; simp [h]
      · simp [Nat.testBit_two_pow_of_ne hj]
    simp [hz]
  | true =>
    have hnz : w &&& 2 ^ b ≠ 0 := by
      intro hz
      have h2 := congrArg (fun x => x.testBit b) hz
      simp [Nat.testBit_and, h, Nat.testBit_two_pow_self] at h2
    simp [hnz]

theorem is_valid_eq_testBit (bm : Bitmap) (i : Nat) :
    bm.is_valid i = (bm.words.getD (i / 64) 0).testBit (i % 64) := by
  simp only [Bitmap.is_valid, Bitmap.word_and_bit, Bitmap.BITS_PER_WORD]
  exact and_two_pow_ne_zero _ _

theorem bitcount_zero : bitcount 0 = 0 := by
  rw [bitcount]
  simp

theorem bitcount_pos (w : Nat) (h : w ≠ 0) : bitcount w = w % 2 + bitcount (w / 2) := by
  rw [bitcount]
  simp [h]

theorem bitcount_two_mul (k : Nat) : bitcount (2 * k) = bitcount k := by
  rcases Nat.eq_zero_or_pos k with hk | hk
  · subst hk; simp [bitcount_zero]
  · rw [bitcount_pos _ (by omega)]
    have h1 : 2 * k % 2 = 0 := by omega
    have h2 : 2 * k / 2 = k := by omega
    rw [h1, h2]
    omega

theorem bitcount_two_mul_add_one (k : Nat) : bitcount (2 * k + 1) = bitcount k + 1 := by
  rw [bitcount_pos _ (by omega)]
  have h1 : (2 * k + 1) % 2 = 1 := by omega
  have h2 : (2 * k + 1) / 2 = k := by omega
  rw [h1, h2]
  omega

theorem land_pred_odd (w : Nat) (h : w % 2 = 1) : w &&& (w - 1) = w - 1 := by
  apply Nat.eq_of_testBit_eq
  intro j
  rw [Nat.testBit_and]
  cases j with
  | zero =>
    have h1 : (w - 1) % 2 = 0 := by omega
    simp [Nat.testBit_zero, h1]
  | succ j =>
    have h1 : w / 2 = (w - 1) / 2 := by omega
    rw [Nat.testBit_succ, Nat.testBit_succ, h1, Bool.and_self]

theorem land_pred_even (k : Nat) (hk : 0 < k) :
    (2 * k) &&& (2 * k - 1) = 2 * (k &&& (k - 1)) := by
  apply Nat.eq_of_testBit_eq
  intro j
  rw [Nat.testBit_and]
  cases j with
  | zero =>
    have h1 : 2 * k % 2 = 0 := by omega
    have h2 : 2 * (k &&& (k - 1)) % 2 = 0 := by omega
    simp [Nat.testBit_zero, h1, h2]
  | succ j =>
    have h1 : 2 * k / 2 = k := by omega
    have h2 : (2 * k - 1) / 2 = k - 1 := by omega
    have h3 : 2 * (k &&& (k - 1)) / 2 = k &&& (k - 1) := by omega
    rw [Nat.testBit_succ, Nat.testBit_succ, Nat.testBit_succ, h1, h2, h3, Nat.testBit_and]

theorem bitcount_land_pred (w : Nat) :
    0 < w → bitcount (w &&& (w - 1)) + 1 = bitcount w := by
  induction w using Nat.strong_induction_on with
  | _ w ih =>
    intro h
    rcases Nat.mod_two_eq_zero_or_one w with he | ho
    · have hk : 0 < w / 2 := by omega
      have hw : w = 2 * (w / 2) := by omega
      rw [hw, land_pred_even _ hk, bitcount_two_mul, bitcount_two_mul]
      exact ih (w / 2) (by omega) hk
    · rw [land_pred_odd w ho]
      have hw1 : w - 1 = 2 * (w / 2) := by omega
      rw [hw1, bitcount_two_mul]
      conv_rhs => rw [show w = 2 * (w / 2) + 1 by omega]
      rw [bitcount_two_mul_add_one]

theorem popcountKer_eq_bitcount (w : Nat) : Bitmap.popcountKer w = bitcount w := by
  induction w using Nat.strong_induction_on with
  | _ w ih =>
    by_cases h : w = 0
    · subst h
      rw [Bitmap.popcountKer, bitcount_zero]
      simp
    · rw [Bitmap.popcountKer]
      simp only [h, dite_false]
      rw [ih (w &&& (w - 1)) (Nat.lt_of_le_of_lt Nat.and_le_right (by omega))]
      exact bitcount_land_pred w (by omega)

theorem bitsTo_zero_left (k : Nat) : bitsTo 0 k = 0 := by
  induction k with
  | zero => rfl
  | succ k ih => simp [bitsTo, ih]

theorem bitsTo_eq_bitcount (k : Nat) : ∀ w, w < 2 ^ k → bitsTo w k = bitcount w := by
  induction k with
  | zero =>
    intro w hw
    have h0 : w = 0 := by simpa using hw
    subst h0
    rw [bitsTo_zero_left, bitcount_zero]
  | succ k ih =>
    intro w hw
    by_cases h : w = 0
    · subst h; rw [bitsTo_zero_left, bitcount_zero]
    · have hdiv : w / 2 < 2 ^ k := by
        rw [Nat.div_lt_iff_lt_mul (by omega)]
        calc w < 2 ^ (k + 1) := hw
        _ = 2 ^ k * 2 := by ring
      show w % 2 + bitsTo (w / 2) k = bitcount w
      rw [ih (w / 2) hdiv, bitcount_pos w h]

theorem bitsTo_succ_top : ∀ (k w : Nat),
    bitsTo w (k + 1) = bitsTo w k + (w.testBit k).toNat := by
  intro k
  induction k with
  | zero =>
    intro w
    show w % 2 + bitsTo (w / 2) 0 = 0 + (w.testBit 0).toNat
    rw [Nat.testBit_zero]
    rcases Nat.mod_two_eq_zero_or_one w with h | h <;> simp [bitsTo, h]
  | succ k ih =>
    intro w
    show w % 2 + bitsTo (w / 2) (k + 1) = bitsTo w (k + 1) + (w.testBit (k + 1)).toNat
    rw [ih (w / 2), Nat.testBit_succ]
    show w % 2 + (bitsTo (w / 2) k + ((w / 2).testBit k).toNat) =
      w % 2 + bitsTo (w / 2) k + ((w / 2).testBit k).toNat
    omega

theorem bitsTo_mod_pow (k : Nat) : ∀ w, bitsTo (w % 2 ^ k) k = bitsTo w k := by
  induction k with
  | zero => intro w; rfl
  | succ k ih =>
    intro w
    show (w % 2 ^ (k + 1)) % 2 + bitsTo ((w % 2 ^ (k + 1)) / 2) k =
      w % 2 + bitsTo (w / 2) k
    have h1 : (w % 2 ^ (k + 1)) % 2 = w % 2 :=
      Nat.mod_mod_of_dvd w ⟨2 ^ k, by ring⟩
    have h2 : (w % 2 ^ (k + 1)) / 2 = (w / 2) % 2 ^ k := by
      rw [show (2 : Nat) ^ (k + 1) = 2 * 2 ^ k by ring]
      exact Nat.mod_mul_right_div_self w 2 (2 ^ k)
    rw [h1, h2, ih]

theorem bitcount_two_pow_sub_one (k : Nat) : bitcount (2 ^ k - 1) = k := by
  induction k with
  | zero => simpa using bitcount_zero
  | succ k ih =>
    have hp : (1 : Nat) ≤ 2 ^ k := Nat.one_le_two_pow
    have h2 : (2 : Nat) ^ (k + 1) = 2 * 2 ^ k := by ring
    have h : 2 ^ (k + 1) - 1 = 2 * (2 ^ k - 1) + 1 := by omega
    rw [h, bitcount_two_mul_add_one, ih]

theorem wfm_getD_lt (bm : Bitmap) (hwf : bm.wfm) (i : Nat) :
    bm.words.getD i 0 < 2 ^ 64 := by
  rw [List.getD_eq_getElem?_getD]
  cases h : bm.words[i]? with
  | none => simp only [Option.getD_none]; exact Nat.two_pow_pos 64
  | some w =>
    simpa using hwf.2 w (List.getElem?_mem h)

theorem validCount_split (bm : Bitmap) (hent : ∀ i, bm.words.getD i 0 < 2 ^ 64) (n : Nat) :
    validCount bm n =
      sumFullWords bm.words (n / 64) + bitsTo (bm.words.getD (n / 64) 0) (n % 64) := by
  induction n with
  | zero => rfl
  | succ n ih =>
    rw [show validCount bm (n + 1) = validCount bm n + (bm.is_valid n).toNat from rfl, ih,
      is_valid_eq_testBit]
    by_cases h : n % 64 = 63
    · have hd : (n + 1) / 64 = n / 64 + 1 := by omega
      have hm : (n + 1) % 64 = 0 := by omega
      rw [hd, hm, h]
      show _ = sumFullWords bm.words (n / 64) + bitcount (bm.words.getD (n / 64) 0) + _
      have htop : bitsTo (bm.words.getD (n / 64) 0) 63 +
          ((bm.words.getD (n / 64) 0).testBit 63).toNat =
          bitcount (bm.words.getD (n / 64) 0) := by
        rw [← bitsTo_succ_top]
        exact bitsTo_eq_bitcount 64 _ (hent _)
      show sumFullWords bm.words (n / 64) + bitsTo (bm.words.getD (n / 64) 0) 63 +
          ((bm.words.getD (n / 64) 0).testBit 63).toNat = _ + bitsTo _ 0
      rw [show bitsTo (bm.words.getD (n / 64 + 1) 0) 0 = 0 from rfl]
      omega
    · have hd : (n + 1) / 64 = n / 64 := by omega
      have hm : (n + 1) % 64 = n % 64 + 1 := by omega
      rw [hd, hm, bitsTo_succ_top]
      omega

theorem all_valid_implies (bm : Bitmap) (h : bm.all_valid = true) :
    ∀ i, i < bm.len → bm.is_valid i = true := by
  intro i hi
  rw [is_valid_eq_testBit]
  simp only [Bitmap.all_valid, Bitmap.BITS_PER_WORD, Bool.and_eq_true] at h
  obtain ⟨hfull, hrem⟩ := h
  have hle : i / 64 ≤ bm.len / 64 := Nat.div_le_div_right (Nat.le_of_lt hi)
  by_cases hw : i / 64 < bm.len / 64
  · have hmem : i / 64 ∈ List.range (bm.len / 64) := List.mem_range.mpr hw
    have hmax : bm.words.getD (i / 64) 0 = u64MAX := by
      have := List.all_eq_true.mp hfull _ hmem
      simpa using this
    rw [hmax]
    show ((2 : Nat) ^ 64 - 1).testBit (i % 64) = true
    rw [Nat.testBit_two_pow_sub_one]
    simp [Nat.mod_lt i (by omega : (0:Nat) < 64)]
  · have hd : i / 64 = bm.len / 64 := by omega
    have hrempos : 0 < bm.len % 64 := by omega
    have hlt : i % 64 < bm.len % 64 := by omega
    rw [if_pos hrempos] at hrem
    have hmask : bm.words.getD (bm.len / 64) 0 &&& ((1 <<< (bm.len % 64)) - 1) =
        (1 <<< (bm.len % 64)) - 1 := by
      have := hrem
      simpa using this
    rw [Nat.one_shiftLeft, Nat.and_pow_two_sub_one_eq_mod] at hmask
    have hbit : (bm.words.getD (bm.len / 64) 0 % 2 ^ (bm.len % 64)).testBit (i % 64) =
        true := by
      rw [hmask, Nat.testBit_two_pow_sub_one]
      simpa using hlt
    rw [Nat.testBit_mod_two_pow] at hbit
    rw [hd]
    exact (Bool.and_eq_true_iff.mp hbit).2

theorem validCount_of_all_valid (bm : Bitmap) (h : bm.all_valid = true) :
    ∀ n, n ≤ bm.len → validCount bm n = n := by
  intro n
  induction n with
  | zero => intro _; rfl
  | succ n ih =>
    intro hn
    show validCount bm n + (bm.is_valid n).toNat = n + 1
    rw [ih (by omega), all_valid_implies bm h n (by omega)]
    rfl

theorem foldl_words_eq_sumFullWords (ws : List Nat)
    (hent : ∀ i, ws.getD i 0 < 2 ^ 64) (fw : Nat) :
    (List.range fw).foldl
      (fun acc i =>
        let word := ws.getD i 0
        if word = u64MAX then acc + Bitmap.BITS_PER_WORD
        else if word = 0 then acc
        else acc + Bitmap.popcountKer word) 0 = sumFullWords ws fw := by
  suffices h : ∀ acc, (List.range fw).foldl
      (fun acc i =>
        let word := ws.getD i 0
        if word = u64MAX then acc + Bitmap.BITS_PER_WORD
        else if word = 0 then acc
        else acc + Bitmap.popcountKer word) acc = acc + sumFullWords ws fw by
    simpa using h 0
  induction fw with
  | zero => intro acc; simp [sumFullWords]
  | succ fw ih =>
    intro acc
    rw [List.range_succ, List.foldl_append, ih]
    show (fun acc i =>
        let word := ws.getD i 0
        if word = u64MAX then acc + Bitmap.BITS_PER_WORD
        else if word = 0 then acc
        else acc + Bitmap.popcountKer word) (acc + sumFullWords ws fw) fw =
      acc + sumFullWords ws (fw + 1)
    show (if ws.getD fw 0 = u64MAX then acc + sumFullWords ws fw + Bitmap.BITS_PER_WORD
      else if ws.getD fw 0 = 0 then acc + sumFullWords ws fw
      else acc + sumFullWords ws fw + Bitmap.popcountKer (ws.getD fw 0)) =
      acc + (sumFullWords ws fw + bitcount (ws.getD fw 0))
    by_cases hmax : ws.getD fw 0 = u64MAX
    · rw [if_pos hmax, hmax]
      show _ = acc + (sumFullWords ws fw + bitcount u64MAX)
      have : bitcount u64MAX = 64 := bitcount_two_pow_sub_one 64
      rw [this]
      simp [Bitmap.BITS_PER_WORD]
      omega
    · rw [if_neg hmax]
      by_cases hz : ws.getD fw 0 = 0
      · rw [if_pos hz, hz, bitcount_zero]
        omega
      · rw [if_neg hz, popcountKer_eq_bitcount]
        omega

theorem count_valid_eq_validCount (bm : Bitmap) (hwf : bm.wfm) (count : Nat)
    (hc : count ≤ bm.len) : bm.count_valid count = validCount bm count := by
  have hent : ∀ i, bm.words.getD i 0 < 2 ^ 64 := wfm_getD_lt bm hwf
  unfold Bitmap.count_valid
  by_cases h0 : count = 0
  · subst h0; rfl
  · rw [if_neg h0]
    by_cases hav : bm.all_valid = true
    · rw [if_pos hav]
      exact (validCount_of_all_valid bm hav count hc).symm
    · rw [if_neg hav]
      rw [validCount_split bm hent count]
      simp only
      rw [foldl_words_eq_sumFullWords bm.words hent]
      by_cases hrem : count % Bitmap.BITS_PER_WORD > 0
      · rw [if_pos hrem]
        congr 1
        have hlt : count % 64 < 64 := Nat.mod_lt _ (by omega)
        have hmask : bm.words.getD (count / Bitmap.BITS_PER_WORD) 0 &&&
            ((1 <<< (count % Bitmap.BITS_PER_WORD)) - 1) =
            bm.words.getD (count / 64) 0 % 2 ^ (count % 64) := by
          simp only [Bitmap.BITS_PER_WORD]
          rw [Nat.one_shiftLeft, Nat.and_pow_two_sub_one_eq_mod]
        have hb : bitcount (bm.words.getD (count / 64) 0 % 2 ^ (count % 64)) =
            bitsTo (bm.words.getD (count / 64) 0) (count % 64) := by
          rw [← bitsTo_mod_pow (count % 64) (bm.words.getD (count / 64) 0)]
          exact (bitsTo_eq_bitcount _ _ (Nat.mod_lt _ (Nat.two_pow_pos _))).symm
        rw [hmask]
        simp only [Bitmap.BITS_PER_WORD]
        by_cases he : bm.words.getD (count / 64) 0 % 2 ^ (count % 64) =
            (1 <<< (count % 64)) - 1
        · rw [if_pos he, ← hb, he, Nat.one_shiftLeft, bitcount_two_pow_sub_one]
        · rw [if_neg he]
          by_cases hz : bm.words.getD (count / 64) 0 % 2 ^ (count % 64) = 0
          · rw [if_pos hz, ← hb, hz, bitcount_zero]
          · rw [if_neg hz, popcountKer_eq_bitcount, hb]
      · rw [if_neg hrem]
        have hm : count % 64 = 0 := by
          simp only [Bitmap.BITS_PER_WORD] at hrem
          omega
        simp only [Bitmap.BITS_PER_WORD]
        rw [hm]
        rfl

/-! ## Bitmap update lemmas (resize / set, as used by `Vector::push`) -/

theorem resize_len (bm : Bitmap) (m : Nat) : (bm.resize m).len = m := rfl

theorem resize_words_le (bm : Bitmap) (m : Nat)
    (h : (bm.len + 63) / 64 ≤ bm.words.length) :
    (m + 63) / 64 ≤ (bm.resize m).words.length := by
  unfold Bitmap.resize
  simp only [Bitmap.BITS_PER_WORD]
  split
  · rename_i hgt
    simp only [List.length_append, List.length_replicate]
    omega
  · rename_i hle
    omega

theorem resize_mem_lt (bm : Bitmap) (m : Nat) (h : ∀ w ∈ bm.words, w < 2 ^ 64) :
    ∀ w ∈ (bm.resize m).words, w < 2 ^ 64 := by
  unfold Bitmap.resize
  simp only
  split
  · intro w hw
    rcases List.mem_append.mp hw with h1 | h2
    · exact h w h1
    · rw [List.eq_of_mem_replicate h2]
      unfold u64MAX
      omega
  · exact h

theorem resize_getD_of_lt (bm : Bitmap) (m i : Nat) (h : i < bm.words.length) :
    (bm.resize m).words.getD i 0 = bm.words.getD i 0 := by
  unfold Bitmap.resize
  simp only
  split
  · exact List.getD_append _ _ _ _ h
  · rfl

theorem getD_set_self (l : List Nat) (i : Nat) (x : Nat) (h : i < l.length) :
    (l.set i x).getD i 0 = x := by
  rw [List.getD_eq_getElem?_getD, List.getElem?_set_self h]
  rfl

theorem getD_set_other (l : List Nat) (i j : Nat) (x : Nat) (h : i ≠ j) :
    (l.set i x).getD j 0 = l.getD j 0 := by
  rw [List.getD_eq_getElem?_getD, List.getElem?_set_ne h, ← List.getD_eq_getElem?_getD]

theorem divmod_eq_of_ne {i j : Nat} (hne : i ≠ j) (h : i / 64 = j / 64) :
    i % 64 ≠ j % 64 := by
  intro hm
  exact hne (by omega)

theorem set_valid_is_valid_self (bm : Bitmap) (i : Nat)
    (h : i / 64 < bm.words.length) : (bm.set_valid i).is_valid i = true := by
  rw [is_valid_eq_testBit]
  simp only [Bitmap.set_valid, Bitmap.word_and_bit, Bitmap.BITS_PER_WORD]
  rw [getD_set_self _ _ _ h, Nat.one_shiftLeft, Nat.testBit_or, Nat.testBit_two_pow_self]
  simp

theorem set_valid_is_valid_other (bm : Bitmap) (i j : Nat) (hne : j ≠ i) :
    (bm.set_valid i).is_valid j = bm.is_valid j := by
  rw [is_valid_eq_testBit, is_valid_eq_testBit]
  simp only [Bitmap.set_valid, Bitmap.word_and_bit, Bitmap.BITS_PER_WORD]
  by_cases hw : i / 64 = j / 64
  · rw [hw]
    by_cases hlen : j / 64 < bm.words.length
    · rw [getD_set_self _ _ _ hlen, Nat.one_shiftLeft, Nat.testBit_or,
        Nat.testBit_two_pow_of_ne (divmod_eq_of_ne (fun he => hne he.symm) hw)]
      simp
    · rw [List.getD_eq_getElem?_getD, List.getElem?_set_self', ← hw]
      have : bm.words[i / 64]? = none := by
        rw [List.getElem?_eq_none]
        omega
      rw [this, hw]
      simp only [Option.map_none]
      rw [List.getD_eq_getElem?_getD, ← hw, this]
  · rw [getD_set_other _ _ _ _ hw]

theorem set_null_is_valid_self (bm : Bitmap) (i : Nat)
    (h : i / 64 < bm.words.length) : (bm.set_null i).is_valid i = false := by
  rw [is_valid_eq_testBit]
  simp only [Bitmap.set_null, Bitmap.word_and_bit, Bitmap.BITS_PER_WORD]
  rw [getD_set_self _ _ _ h, Nat.one_shiftLeft, Nat.testBit_and, Nat.testBit_xor]
  have h1 : (u64MAX).testBit (i % 64) = true := by
    unfold u64MAX
    rw [Nat.testBit_two_pow_sub_one]
    simp [Nat.mod_lt i (by omega : (0:Nat) < 64)]
  rw [h1, Nat.testBit_two_pow_self]
  simp

theorem set_null_is_valid_other (bm : Bitmap) (i j : Nat) (hne : j ≠ i) :
    (bm.set_null i).is_valid j = bm.is_valid j := by
  rw [is_valid_eq_testBit, is_valid_eq_testBit]
  simp only [Bitmap.set_null, Bitmap.word_and_bit, Bitmap.BITS_PER_WORD]
  by_cases hw : i / 64 = j / 64
  · rw [hw]
    by_cases hlen : j / 64 < bm.words.length
    · rw [getD_set_self _ _ _ hlen, Nat.one_shiftLeft, Nat.testBit_and, Nat.testBit_xor]
      have h1 : (u64MAX).testBit (j % 64) = true := by
        unfold u64MAX
        rw [Nat.testBit_two_pow_sub_one]
        simp [Nat.mod_lt j (by omega : (0:Nat) < 64)]
      rw [h1, Nat.testBit_two_pow_of_ne (divmod_eq_of_ne (fun he => hne he.symm) hw)]
      simp
    · rw [List.getD_eq_getElem?_getD, List.getElem?_set_self', ← hw]
      have : bm.words[i / 64]? = none := by
        rw [List.getElem?_eq_none]
        omega
      rw [this, hw]
      simp only [Option.map_none]
      rw [List.getD_eq_getElem?_getD, ← hw, this]
  · rw [getD_set_other _ _ _ _ hw]

theorem set_valid_len (bm : Bitmap) (i : Nat) : (bm.set_valid i).len = bm.len := rfl

theorem set_null_len (bm : Bitmap) (i : Nat) : (bm.set_null i).len = bm.len := rfl

theorem set_valid_words_length (bm : Bitmap) (i : Nat) :
    (bm.set_valid i).words.length = bm.words.length := by
  simp [Bitmap.set_valid]

theorem set_null_words_length (bm : Bitmap) (i : Nat) :
    (bm.set_null i).words.length = bm.words.length := by
  simp [Bitmap.set_null]

theorem set_valid_mem_lt (bm : Bitmap) (i : Nat) (h : ∀ w ∈ bm.words, w < 2 ^ 64) :
    ∀ w ∈ (bm.set_valid i).words, w < 2 ^ 64 := by
  simp only [Bitmap.set_valid, Bitmap.word_and_bit, Bitmap.BITS_PER_WORD]
  intro w hw
  rcases List.mem_or_eq_of_mem_set hw with h1 | h2
  · exact h w h1
  · subst h2
    apply Nat.or_lt_two_pow
    · rw [List.getD_eq_getElem?_getD]
      cases hg : bm.words[i / 64]? with
      | none => simp only [Option.getD_none]; exact Nat.two_pow_pos 64
      | some x => simpa using h x (List.getElem?_mem hg)
    · rw [Nat.one_shiftLeft]
      exact Nat.pow_lt_pow_right (by omega) (Nat.mod_lt i (by omega))

theorem set_null_mem_lt (bm : Bitmap) (i : Nat) (h : ∀ w ∈ bm.words, w < 2 ^ 64) :
    ∀ w ∈ (bm.set_null i).words, w < 2 ^ 64 := by
  simp only [Bitmap.set_null, Bitmap.word_and_bit, Bitmap.BITS_PER_WORD]
  intro w hw
  rcases List.mem_or_eq_of_mem_set hw with h1 | h2
  · exact h w h1
  · subst h2
    apply Nat.lt_of_le_of_lt Nat.and_le_left
    rw [List.getD_eq_getElem?_getD]
    cases hg : bm.words[i / 64]? with
    | none => simp only [Option.getD_none]; exact Nat.two_pow_pos 64
    | some x => simpa using h x (List.getElem?_mem hg)

theorem div64_lt_of_lt_len (i n L : Nat) (hi : i < n) (hL : (n + 63) / 64 ≤ L) :
    i / 64 < L := by
  have h1 : (i + 64) / 64 ≤ (n + 63) / 64 := Nat.div_le_div_right (by omega)
  have h2 : (i + 64) / 64 = i / 64 + 1 := Nat.add_div_right i (by omega)
  omega

theorem resize_is_valid_of_lt (bm : Bitmap) (m i : Nat) (h : i / 64 < bm.words.length) :
    (bm.resize m).is_valid i = bm.is_valid i := by
  rw [is_valid_eq_testBit, is_valid_eq_testBit, resize_getD_of_lt _ _ _ h]

theorem resize_wfm (bm : Bitmap) (m : Nat) (hwf : bm.wfm) : (bm.resize m).wfm := by
  refine ⟨?_, resize_mem_lt bm m hwf.2⟩
  rw [resize_len]
  exact resize_words_le bm m hwf.1

/-- Effect of `(bm.resize (n+1)).set_valid n` on a well-formed bitmap of
length `n` (the valid-push path of `Vector::push`). -/
theorem pushBit_valid (bm : Bitmap) (n : Nat) (hblen : bm.len = n) (hwf : bm.wfm) :
    ((bm.resize (n + 1)).set_valid n).len = n + 1 ∧
    ((bm.resize (n + 1)).set_valid n).wfm ∧
    ((bm.resize (n + 1)).set_valid n).is_valid n = true ∧
    ∀ i, i < n → ((bm.resize (n + 1)).set_valid n).is_valid i = bm.is_valid i := by
  have hr := resize_wfm bm (n + 1) hwf
  have hrl : (bm.resize (n + 1)).len = n + 1 := resize_len bm (n + 1)
  have hwl : n / 64 < (bm.resize (n + 1)).words.length :=
    div64_lt_of_lt_len n (n + 1) _ (by omega) (by rw [← hrl]; exact hr.1)
  refine ⟨?_, ⟨?_, ?_⟩, ?_, ?_⟩
  · rw [set_valid_len, hrl]
  · rw [set_valid_len, set_valid_words_length, hrl]
    exact hr.1
  · exact set_valid_mem_lt _ n hr.2
  · exact set_valid_is_valid_self _ n hwl
  · intro i hi
    rw [set_valid_is_valid_other _ n i (by omega)]
    exact resize_is_valid_of_lt bm (n + 1) i
      (div64_lt_of_lt_len i n _ hi (by rw [← hblen]; exact hwf.1))

/-- Effect of `(bm.resize (n+1)).set_null n` (the NULL-push path of
`Vector::push`). -/
theorem pushBit_null (bm : Bitmap) (n : Nat) (hblen : bm.len = n) (hwf : bm.wfm) :
    ((bm.resize (n + 1)).set_null n).len = n + 1 ∧
    ((bm.resize (n + 1)).set_null n).wfm ∧
    ((bm.resize (n + 1)).set_null n).is_valid n = false ∧
    ∀ i, i < n → ((bm.resize (n + 1)).set_null n).is_valid i = bm.is_valid i := by
  have hr := resize_wfm bm (n + 1) hwf
  have hrl : (bm.resize (n + 1)).len = n + 1 := resize_len bm (n + 1)
  have hwl : n / 64 < (bm.resize (n + 1)).words.length :=
    div64_lt_of_lt_len n (n + 1) _ (by omega) (by rw [← hrl]; exact hr.1)
  refine ⟨?_, ⟨?_, ?_⟩, ?_, ?_⟩
  · rw [set_null_len, hrl]
  · rw [set_null_len, set_null_words_length, hrl]
    exact hr.1
  · exact set_null_mem_lt _ n hr.2
  · exact set_null_is_valid_self _ n hwl
  · intro i hi
    rw [set_null_is_valid_other _ n i (by omega)]
    exact resize_is_valid_of_lt bm (n + 1) i
      (div64_lt_of_lt_len i n _ hi (by rw [← hblen]; exact hwf.1))

/-- One `Vector::push` of a type-compatible value: lengths grow by one, the
validity bitmap stays well-formed, the new bit records non-nullness, the
old bits and the vector's type are untouched. -/
theorem push_step (v : Vector) (a : Value) (n : Nat)
    (hok : typeMatches v.column_type a = true)
    (hlen : v.len = n) (hblen : v.validity.len = n) (hwf : v.validity.wfm) :
    (v.push a).len = n + 1 ∧
    (v.push a).validity.len = n + 1 ∧
    (v.push a).validity.wfm ∧
    (v.push a).column_type = v.column_type ∧
    (v.push a).validity.is_valid n = (a != Value.Null) ∧
    ∀ i, i < n → (v.push a).validity.is_valid i = v.validity.is_valid i := by
  cases v with
  | Integer data validity =>
    simp only [Vector.len] at hlen
    simp only [Vector.validity] at hblen hwf
    cases a with
    | Integer x =>
      have he : (data ++ [x]).length = n + 1 := by simp [hlen]
      obtain ⟨p1, p2, p3, p4⟩ := pushBit_valid validity n hblen hwf
      simp only [Vector.push, Vector.len, Vector.validity, Vector.column_type, he,
        Nat.add_sub_cancel]
      exact ⟨by simp [hlen], p1, p2, by trivial, p3, p4⟩
    | Null =>
      have he : (data ++ [(0 : Int)]).length = n + 1 := by simp [hlen]
      obtain ⟨p1, p2, p3, p4⟩ := pushBit_null validity n hblen hwf
      simp only [Vector.push, Vector.len, Vector.validity, Vector.column_type, he,
        Nat.add_sub_cancel]
      exact ⟨by simp [hlen], p1, p2, by trivial, p3, p4⟩
    | Float x => simp [typeMatches, Vector.column_type] at hok
    | Boolean x => simp [typeMatches, Vector.column_type] at hok
    | Varchar x => simp [typeMatches, Vector.column_type] at hok
  | Float data validity =>
    simp only [Vector.len] at hlen
    simp only [Vector.validity] at hblen hwf
    cases a with
    | Float x =>
      have he : (data ++ [x]).length = n + 1 := by simp [hlen]
      obtain ⟨p1, p2, p3, p4⟩ := pushBit_valid validity n hblen hwf
      simp only [Vector.push, Vector.len, Vector.validity, Vector.column_type, he,
        Nat.add_sub_cancel]
      exact ⟨by simp [hlen], p1, p2, by trivial, p3, p4⟩
    | Null =>
      have he : (data ++ [F64.finite 0]).length = n + 1 := by simp [hlen]
      obtain ⟨p1, p2, p3, p4⟩ := pushBit_null validity n hblen hwf
      simp only [Vector.push, Vector.len, Vector.validity, Vector.column_type, he,
        Nat.add_sub_cancel]
      exact ⟨by simp [hlen], p1, p2, by trivial, p3, p4⟩
    | Integer x => simp [typeMatches, Vector.column_type] at hok
    | Boolean x => simp [typeMatches, Vector.column_type] at hok
    | Varchar x => simp [typeMatches, Vector.column_type] at hok
  | Boolean data validity =>
    simp only [Vector.len] at hlen
    simp only [Vector.validity] at hblen hwf
    cases a with
    | Boolean x =>
      have he : (data ++ [x]).length = n + 1 := by simp [hlen]
      obtain ⟨p1, p2, p3, p4⟩ := pushBit_valid validity n hblen hwf
      simp only [Vector.push, Vector.len, Vector.validity, Vector.column_type, he,
        Nat.add_sub_cancel]
      exact ⟨by simp [hlen], p1, p2, by trivial, p3, p4⟩
    | Null =>
      have he : (data ++ [false]).length = n + 1 := by simp [hlen]
      obtain ⟨p1, p2, p3, p4⟩ := pushBit_null validity n hblen hwf
      simp only [Vector.push, Vector.len, Vector.validity, Vector.column_type, he,
        Nat.add_sub_cancel]
      exact ⟨by simp [hlen], p1, p2, by trivial, p3, p4⟩
    | Integer x => simp [typeMatches, Vector.column_type] at hok
    | Float x => simp [typeMatches, Vector.column_type] at hok
    | Varchar x => simp [typeMatches, Vector.column_type] at hok
  | Varchar data validity =>
    simp only [Vector.len] at hlen
    simp only [Vector.validity] at hblen hwf
    cases a with
    | Varchar x =>
      have he : (data ++ [x]).length = n + 1 := by simp [hlen]
      obtain ⟨p1, p2, p3, p4⟩ := pushBit_valid validity n hblen hwf
      simp only [Vector.push, Vector.len, Vector.validity, Vector.column_type, he,
        Nat.add_sub_cancel]
      exact ⟨by simp [hlen], p1, p2, by trivial, p3, p4⟩
    | Null =>
      have he : (data ++ [""]).length = n + 1 := by simp [hlen]
      obtain ⟨p1, p2, p3, p4⟩ := pushBit_null validity n hblen hwf
      simp only [Vector.push, Vector.len, Vector.validity, Vector.column_type, he,
        Nat.add_sub_cancel]
      exact ⟨by simp [hlen], p1, p2, by trivial, p3, p4⟩
    | Integer x => simp [typeMatches, Vector.column_type] at hok
    | Float x => simp [typeMatches, Vector.column_type] at hok
    | Boolean x => simp [typeMatches, Vector.column_type] at hok

/-- Folding `Vector::push` over a list of type-compatible values. -/
theorem foldl_push_tracks (vals : List Value) :
    ∀ (v : Vector) (done : Nat),
      (∀ x ∈ vals, typeMatches v.column_type x = true) →
      v.len = done → v.validity.len = done → v.validity.wfm →
      (vals.foldl Vector.push v).len = done + vals.length ∧
      (vals.foldl Vector.push v).validity.len = done + vals.length ∧
      (vals.foldl Vector.push v).validity.wfm ∧
      (vals.foldl Vector.push v).column_type = v.column_type ∧
      (∀ i, i < done →
        (vals.foldl Vector.push v).validity.is_valid i = v.validity.is_valid i) ∧
      (∀ j, j < vals.length →
        (vals.foldl Vector.push v).validity.is_valid (done + j) =
          (vals.getD j .Null != .Null)) := by
  induction vals with
  | nil =>
    intro v done _ h1 h2 h3
    refine ⟨by simpa using h1, by simpa using h2, h3, rfl, fun i _ => rfl, fun j hj => by
      simp at hj⟩
  | cons a vs ih =>
    intro v done hok h1 h2 h3
    obtain ⟨q1, q2, q3, q4, q5, q6⟩ := push_step v a done
      (hok a (List.mem_cons_self a vs)) h1 h2 h3
    have hok' : ∀ x ∈ vs, typeMatches (v.push a).column_type x = true := by
      intro x hx
      rw [q4]
      exact hok x (List.mem_cons_of_mem a hx)
    obtain ⟨r1, r2, r3, r4, r5, r6⟩ := ih (v.push a) (done + 1) hok' q1 q2 q3
    refine ⟨?_, ?_, r3, r4.trans q4, ?_, ?_⟩
    · rw [List.foldl_cons, r1, List.length_cons]
      omega
    · rw [List.foldl_cons, r2, List.length_cons]
      omega
    · intro i hi
      rw [List.foldl_cons, r5 i (by omega)]
      exact q6 i hi
    · intro j hj
      cases j with
      | zero =>
        rw [List.foldl_cons, Nat.add_zero, r5 done (by omega), q5]
        rfl
      | succ j =>
        rw [List.foldl_cons, show done + (j + 1) = done + 1 + j by omega,
          r6 j (by simpa using hj)]
        rfl

theorem typeMatches_new (t : ColumnType) (x : Value) (h : typeMatches t x = true) :
    typeMatches (Vector.new t DataChunk.STANDARD_VECTOR_SIZE).column_type x = true := by
  cases t <;> cases x <;> simp_all [typeMatches, Vector.new, Vector.column_type]

/-- Facts about a column vector built by pushing a list of type-compatible
values into a fresh vector. -/
theorem vecBuilt_facts (t : ColumnType) (vals : List Value)
    (hm : ∀ x ∈ vals, typeMatches t x = true) :
    (vals.foldl Vector.push (Vector.new t DataChunk.STANDARD_VECTOR_SIZE)).len =
      vals.length ∧
    (vals.foldl Vector.push
      (Vector.new t DataChunk.STANDARD_VECTOR_SIZE)).validity.len = vals.length ∧
    (vals.foldl Vector.push (Vector.new t DataChunk.STANDARD_VECTOR_SIZE)).validity.wfm ∧
    ∀ j, j < vals.length →
      (vals.foldl Vector.push
        (Vector.new t DataChunk.STANDARD_VECTOR_SIZE)).validity.is_valid j =
        (vals.getD j .Null != .Null) := by
  have h0len : (Vector.new t DataChunk.STANDARD_VECTOR_SIZE).len = 0 := by
    cases t <;> rfl
  have h0blen : (Vector.new t DataChunk.STANDARD_VECTOR_SIZE).validity.len = 0 := by
    cases t <;> rfl
  have h0wf : (Vector.new t DataChunk.STANDARD_VECTOR_SIZE).validity.wfm := by
    cases t <;>
      simp [Vector.new, Vector.validity, Bitmap.wfm, Bitmap.new, Bitmap.BITS_PER_WORD]
  obtain ⟨r1, r2, r3, _, _, r6⟩ := foldl_push_tracks vals
    (Vector.new t DataChunk.STANDARD_VECTOR_SIZE) 0
    (fun x hx => typeMatches_new t x (hm x hx)) h0len h0blen h0wf
  exact ⟨by simpa using r1, by simpa using r2, r3, fun j hj => by simpa using r6 j hj⟩

theorem validCount_eq_countP (vals : List Value) :
    ∀ (bm : Bitmap),
      (∀ j, j < vals.length → bm.is_valid j = (vals.getD j .Null != .Null)) →
      validCount bm vals.length = vals.countP (fun x => x != .Null) := by
  induction vals using List.reverseRecOn with
  | nil => intro bm _; rfl
  | append_singleton vs x ih =>
    intro bm h
    have hlen : (vs ++ [x]).length = vs.length + 1 := by simp
    rw [hlen]
    show validCount bm vs.length + (bm.is_valid vs.length).toNat = _
    rw [ih bm (fun j hj => by
      rw [h j (by simp; omega), List.getD_append _ _ _ _ hj]),
      h vs.length (by simp), List.getD_append_right _ _ _ _ (Nat.le_refl _)]
    simp only [Nat.sub_self, List.getD_cons_zero, List.countP_append]
    cases hx : (x != Value.Null) <;> simp [List.countP, List.countP.go, hx]

/-! ## Chunk-building lemmas (`append_row`, `chunkOfRows`) -/

theorem append_row_columns_getD (c : DataChunk) (row : List Value) (p : Nat)
    (hp : p < c.columns.length) (h : row.length = c.columns.length) :
    (c.append_row row).columns.getD p (Vector.new .Integer 0) =
      (c.columns.getD p (Vector.new .Integer 0)).push (row.getD p .Null) := by
  simp only [DataChunk.append_row]
  rw [List.getD_eq_getElem?_getD, List.getElem?_zipWith, List.getD_eq_getElem?_getD,
    List.getD_eq_getElem?_getD]
  rw [List.getElem?_eq_getElem hp, List.getElem?_eq_getElem (by omega : p < row.length)]
  rfl

/-- Folding `append_row` over same-shape rows: count, selection, capacity,
column count, and each column as a per-column fold of pushes. -/
theorem foldl_append_row (rows : List (List Value)) :
    ∀ (c : DataChunk), (∀ r ∈ rows, r.length = c.columns.length) →
      (rows.foldl DataChunk.append_row c).count = c.count + rows.length ∧
      (rows.foldl DataChunk.append_row c).selection = c.selection ∧
      (rows.foldl DataChunk.append_row c).capacity = c.capacity ∧
      (rows.foldl DataChunk.append_row c).columns.length = c.columns.length ∧
      ∀ p, p < c.columns.length →
        (rows.foldl DataChunk.append_row c).columns.getD p (Vector.new .Integer 0) =
          (rows.map (fun r => r.getD p .Null)).foldl Vector.push
            (c.columns.getD p (Vector.new .Integer 0)) := by
  induction rows with
  | nil => intro c _; exact ⟨rfl, rfl, rfl, rfl, fun p _ => rfl⟩
  | cons r rs ih =>
    intro c hlen
    have hr : r.length = c.columns.length := hlen r (List.mem_cons_self r rs)
    have hcl : (c.append_row r).columns.length = c.columns.length := by
      simp [DataChunk.append_row, List.length_zipWith, hr]
    have hlen' : ∀ x ∈ rs, x.length = (c.append_row r).columns.length := by
      intro x hx
      rw [hcl]
      exact hlen x (List.mem_cons_of_mem r hx)
    obtain ⟨i1, i2, i3, i4, i5⟩ := ih (c.append_row r) hlen'
    refine ⟨?_, ?_, ?_, ?_, ?_⟩
    · rw [List.foldl_cons, i1]
      show c.count + 1 + rs.length = c.count + (rs.length + 1)
      omega
    · rw [List.foldl_cons, i2]; rfl
    · rw [List.foldl_cons, i3]; rfl
    · rw [List.foldl_cons, i4, hcl]
    · intro p hp
      rw [List.foldl_cons, i5 p (by rw [hcl]; exact hp), List.map_cons, List.foldl_cons,
        append_row_columns_getD c r p hp hr]

theorem new_columns_getD (types : List ColumnType) (cap : Nat) (p : Nat)
    (hp : p < types.length) :
    (DataChunk.new types cap).columns.getD p (Vector.new .Integer 0) =
      Vector.new (types.getD p .Varchar) cap := by
  show (types.map fun t => Vector.new t cap).getD p (Vector.new .Integer 0) = _
  rw [List.getD_eq_getElem?_getD, List.getElem?_map, List.getElem?_eq_getElem hp]
  show Vector.new (types[p]) cap = Vector.new (types.getD p .Varchar) cap
  congr 1
  rw [List.getD_eq_getElem?_getD, List.getElem?_eq_getElem hp]
  rfl

theorem chunkOfRows_facts (types : List ColumnType) (rows : List (List Value))
    (hlen : ∀ r ∈ rows, r.length = types.length) :
    (chunkOfRows types rows).count = rows.length ∧
    (chunkOfRows types rows).selection = none ∧
    (chunkOfRows types rows).columns.length = types.length ∧
    ∀ p, p < types.length →
      (chunkOfRows types rows).columns.getD p (Vector.new .Integer 0) =
        (rows.map (fun r => r.getD p .Null)).foldl Vector.push
          (Vector.new (types.getD p .Varchar) DataChunk.STANDARD_VECTOR_SIZE) := by
  unfold chunkOfRows
  have hbase : (DataChunk.new types DataChunk.STANDARD_VECTOR_SIZE).columns.length =
      types.length := by simp [DataChunk.new]
  obtain ⟨i1, i2, i3, i4, i5⟩ := foldl_append_row rows
    (DataChunk.new types DataChunk.STANDARD_VECTOR_SIZE) (by
      intro r hr; rw [hbase]; exact hlen r hr)
  refine ⟨by rw [i1]; simp [DataChunk.new], i2, by rw [i4, hbase], ?_⟩
  intro p hp
  rw [i5 p (by rw [hbase]; exact hp), new_columns_getD types _ p hp]

/-! ## Aggregate counting (C4) -/

theorem getD_irrel {α : Type} (l : List α) (p : Nat) (d1 d2 : α) (h : p < l.length) :
    l.getD p d1 = l.getD p d2 := by
  rw [List.getD_eq_getElem?_getD, List.getD_eq_getElem?_getD, List.getElem?_eq_getElem h]
  rfl

theorem aggDelta_count_chunkOfRows (types : List ColumnType) (rows : List (List Value))
    (col : Column)
    (hlen : ∀ r ∈ rows, r.length = types.length)
    (htm : ∀ r ∈ rows, ∀ p, p < types.length →
      typeMatches (types.getD p .Varchar) (r.getD p .Null) = true)
    (hcol : col.index < types.length) :
    aggDelta (chunkOfRows types rows) (.Count col) = (nonNullCount rows col.index : Int) := by
  obtain ⟨f1, f2, f3, f4⟩ := chunkOfRows_facts types rows hlen
  have hsel : (chunkOfRows types rows).selected_count = rows.length := by
    simp only [DataChunk.selected_count, f2, f1]
  have hcc : (chunkOfRows types rows).column_count = types.length := by
    simp only [DataChunk.column_count, f3]
  have hun : aggDelta (chunkOfRows types rows) (.Count col) =
      (((((chunkOfRows types rows).columns.getD col.index
        (.Integer [] (Bitmap.new 0))).validity.count_valid
          (chunkOfRows types rows).selected_count : Nat)) : Int) := by
    simp only [aggDelta]
    rw [if_neg (by rw [hcc]; omega)]
  rw [hun]
  have hvec : (chunkOfRows types rows).columns.getD col.index (.Integer [] (Bitmap.new 0)) =
      (rows.map fun r => r.getD col.index .Null).foldl Vector.push
        (Vector.new (types.getD col.index .Varchar) DataChunk.STANDARD_VECTOR_SIZE) := by
    rw [getD_irrel _ col.index _ (Vector.new .Integer 0) (by rw [f3]; exact hcol)]
    exact f4 col.index hcol
  rw [hvec, hsel]
  obtain ⟨v1, v2, v3, v4⟩ := vecBuilt_facts (types.getD col.index .Varchar)
    (rows.map fun r => r.getD col.index .Null) (by
      intro x hx
      obtain ⟨r, hr, hxe⟩ := List.mem_map.mp hx
      rw [← hxe]
      exact htm r hr col.index hcol)
  have hml : (rows.map fun r => r.getD col.index .Null).length = rows.length := by simp
  rw [count_valid_eq_validCount _ v3 rows.length (by rw [v2, hml])]
  have := validCount_eq_countP (rows.map fun r => r.getD col.index .Null) _ (by
    intro j hj
    rw [hml] at hj
    exact v4 j (by simpa using hj))
  rw [hml] at this
  rw [this, List.countP_map]
  rfl

theorem aggDelta_countStar_chunkOfRows (types : List ColumnType)
    (rows : List (List Value)) (hlen : ∀ r ∈ rows, r.length = types.length) :
    aggDelta (chunkOfRows types rows) .CountStar = (rows.length : Int) := by
  obtain ⟨f1, f2, f3, f4⟩ := chunkOfRows_facts types rows hlen
  unfold aggDelta
  simp only [DataChunk.selected_count, f2, f1]

theorem reset_is_empty (c : DataChunk) : c.reset.is_empty = true := rfl

theorem emit_result_not_empty (st : AggState) : (emit_result st).is_empty = false := rfl

/-- The executor on a `[source, aggregate]` pipeline with non-empty source
batches: exactly one result batch, the aggregate's emitted row built from
the folded counter states. -/
theorem executeLoop_agg (s0 s1 : List ColumnType) (cs : List DataChunk) :
    ∀ (st : AggState) (pool : BufferPool) (res : List DataChunk) (it : Nat)
      (tr : List (List ExecuteResult)),
      st.finished = false → st.has_emitted = false →
      (∀ c ∈ cs, c.is_empty = false) →
      (executeLoop (cs.length + 1) [s0, s1] (.source ⟨cs⟩) [.aggregate st] pool false res
        it tr).results = res ++ [emit_result (cs.foldl update_states st)] := by
  induction cs with
  | nil =>
    intro st pool res it tr hf hh _
    show (executeLoop (0 + 1) _ _ _ _ _ _ _ _).results = _
    simp only [Nat.zero_add, executeLoop, acquireAll_fst, List.map, execOp, sourceExecute,
      pushThrough, aggExecute, hf, hh, reset_is_empty, emit_result_not_empty,
      List.getLastD_cons, List.getLastD_nil, Bool.false_and, Bool.and_false,
      Bool.true_and, Bool.and_true, Bool.not_true, Bool.not_false, Bool.or_true,
      Bool.false_or, Bool.true_or, if_true, if_false, List.foldl_nil]
    simp [emit_result_not_empty]
  | cons c rest ih =>
    intro st pool res it tr hf hh hcs
    have hc : c.is_empty = false := hcs c (List.mem_cons_self c rest)
    show (executeLoop (rest.length + 1 + 1) _ _ _ _ _ _ _ _).results = _
    conv_lhs => rw [executeLoop]
    simp only [acquireAll_fst, List.map, execOp, sourceExecute, pushThrough, aggExecute,
      hf, hh, hc, reset_is_empty, Bool.false_and, Bool.and_false, Bool.true_and,
      Bool.and_true, Bool.not_true, Bool.not_false, Bool.or_false, Bool.false_or,
      Bool.false_eq_true, if_true, if_false, ite_false, ite_true,
      List.getLastD_cons, List.getLastD_nil, decide_eq_true_eq]
    rw [List.foldl_cons]
    exact ih (update_states st c) _ res (it + 1) _ hf hh
      (fun x hx => hcs x (List.mem_cons_of_mem c hx))

theorem agg_fold_states (col : Column) (cs : List DataChunk) :
    ∀ (s1 s2 : Int) (fin he : Bool),
      (cs.foldl update_states
        ⟨[.CountStar, .Count col], [s1, s2], fin, he⟩).states =
      [s1 + (cs.map fun c => aggDelta c .CountStar).sum,
        s2 + (cs.map fun c => aggDelta c (.Count col)).sum] := by
  induction cs with
  | nil => intro s1 s2 fin he; simp
  | cons c cs ih =>
    intro s1 s2 fin he
    rw [List.foldl_cons]
    show (cs.foldl update_states
      ⟨[.CountStar, .Count col],
        [s1 + aggDelta c .CountStar, s2 + aggDelta c (.Count col)], fin, he⟩).states = _
    rw [ih]
    simp [add_assoc]

theorem foldl_update_states_aggregates (cs : List DataChunk) :
    ∀ st : AggState, (cs.foldl update_states st).aggregates = st.aggregates := by
  induction cs with
  | nil => intro st; rfl
  | cons c cs ih =>
    intro st
    rw [List.foldl_cons]
    exact ih _

theorem emit_result_values (aggs : List BoundAggregateExpression) (a b : Int)
    (fin he : Bool) (hagg : aggs.length = 2) :
    (emit_result ⟨aggs, [a, b], fin, he⟩).selected_count = 1 ∧
    (emit_result ⟨aggs, [a, b], fin, he⟩).get_value 0 0 = some (.Integer a) ∧
    (emit_result ⟨aggs, [a, b], fin, he⟩).get_value 1 0 = some (.Integer b) := by
  have hv : (((Bitmap.new 0).resize 1).set_valid 0).is_valid 0 = true := by decide
  simp only [emit_result, hagg]
  refine ⟨rfl, ?_, ?_⟩ <;>
    simp [DataChunk.new, DataChunk.append_row, DataChunk.get_value, Vector.new,
      Vector.push, Vector.get, hv]

theorem int_sum_of_nat_list {α : Type} (f : α → Nat) (l : List α) :
    (l.map fun a => ((f a : Nat) : Int)).sum = ((l.map f).sum : Int) := by
  induction l with
  | nil => rfl
  | cons a l ih => simp [ih]

theorem nonNullCount_flatten (rowss : List (List (List Value))) (p : Nat) :
    nonNullCount rowss.flatten p = (rowss.map fun rows => nonNullCount rows p).sum := by
  unfold nonNullCount
  rw [List.countP_flatten]

/-- C4: for every decomposition of a file's data rows into non-empty
scanner batches, the query pipeline `[scan, Aggregate [COUNT(*), COUNT(c)]]`
returns a single row whose first value is the number of data rows and whose
second value is the number of rows whose column `c` is not Null; the
aggregate computes these by adding each batch's selected row count
(`COUNT(*)`) and the validity-bitmap popcount over the first
`selected_count` bits (`COUNT(c)`). -/
theorem C4_count_star_and_count_column (types : List ColumnType) (col : Column)
    (rowss : List (List (List Value)))
    (hne : ∀ rows ∈ rowss, rows ≠ [])
    (hcap : ∀ rows ∈ rowss, rows.length ≤ DataChunk.STANDARD_VECTOR_SIZE)
    (hlen : ∀ rows ∈ rowss, ∀ r ∈ rows, r.length = types.length)
    (htm : ∀ rows ∈ rowss, ∀ r ∈ rows, ∀ p, p < types.length →
      typeMatches (types.getD p .Varchar) (r.getD p .Null) = true)
    (hcol : col.index < types.length) :
    ((PipelineExecutor.execute (rowss.length + 1) [types, [.Integer, .Integer]]
      (.source ⟨rowss.map (chunkOfRows types)⟩)
      [.aggregate (AggState.new [.CountStar, .Count col])]).results.map
        fun c => (c.selected_count, c.get_value 0 0, c.get_value 1 0)) =
      [((1 : Nat), some (.Integer (rowss.flatten.length : Int)),
        some (.Integer (nonNullCount rowss.flatten col.index : Int)))] := by
  unfold PipelineExecutor.execute
  have hlen' : (rowss.map (chunkOfRows types)).length = rowss.length := by simp
  rw [← hlen']
  rw [executeLoop_agg types [.Integer, .Integer] (rowss.map (chunkOfRows types))
    (AggState.new [.CountStar, .Count col]) _ [] 0 [] rfl rfl (by
      intro c hc
      obtain ⟨rows, hrows, hce⟩ := List.mem_map.mp hc
      obtain ⟨f1, _, _, _⟩ := chunkOfRows_facts types rows (hlen rows hrows)
      rw [← hce]
      simp only [DataChunk.is_empty, f1]
      have := hne rows hrows
      simp [List.length_eq_zero]
      intro hcon
      exact this hcon)]
  have hst : AggState.new [.CountStar, .Count col] =
      ⟨[.CountStar, .Count col], [0, 0], false, false⟩ := rfl
  rw [hst]
  have hsum1 : ((rowss.map (chunkOfRows types)).map fun c => aggDelta c .CountStar).sum =
      (rowss.flatten.length : Int) := by
    have hmc : (rowss.map fun rows => aggDelta (chunkOfRows types rows) .CountStar) =
        rowss.map fun rows => ((rows.length : Nat) : Int) := by
      apply List.map_congr_left
      intro rows hrows
      exact aggDelta_countStar_chunkOfRows types rows (hlen rows hrows)
    rw [List.map_map,
      show ((fun c => aggDelta c .CountStar) ∘ chunkOfRows types) =
        (fun rows => aggDelta (chunkOfRows types rows) .CountStar) from rfl,
      hmc, int_sum_of_nat_list, List.length_flatten]
  have hsum2 : ((rowss.map (chunkOfRows types)).map fun c => aggDelta c (.Count col)).sum =
      (nonNullCount rowss.flatten col.index : Int) := by
    have hmc : (rowss.map fun rows => aggDelta (chunkOfRows types rows) (.Count col)) =
        rowss.map fun rows => ((nonNullCount rows col.index : Nat) : Int) := by
      apply List.map_congr_left
      intro rows hrows
      exact aggDelta_count_chunkOfRows types rows col (hlen rows hrows)
        (htm rows hrows) hcol
    rw [List.map_map,
      show ((fun c => aggDelta c (.Count col)) ∘ chunkOfRows types) =
        (fun rows => aggDelta (chunkOfRows types rows) (.Count col)) from rfl,
      hmc, int_sum_of_nat_list, nonNullCount_flatten]
  cases hfold : (rowss.map (chunkOfRows types)).foldl update_states
      (⟨[.CountStar, .Count col], [0, 0], false, false⟩ : AggState) with
  | mk ag stv fin he =>
    have ha : ag = [.CountStar, .Count col] := by
      have h := foldl_update_states_aggregates (rowss.map (chunkOfRows types))
        (⟨[.CountStar, .Count col], [0, 0], false, false⟩ : AggState)
      rw [hfold] at h
      exact h
    have hs : stv =
        [0 + ((rowss.map (chunkOfRows types)).map fun c => aggDelta c .CountStar).sum,
          0 + ((rowss.map (chunkOfRows types)).map fun c => aggDelta c (.Count col)).sum] := by
      have h := agg_fold_states col (rowss.map (chunkOfRows types)) 0 0 false false
      rw [hfold] at h
      exact h
    subst ha hs
    obtain ⟨e1, e2, e3⟩ := emit_result_values [.CountStar, .Count col]
      (0 + ((rowss.map (chunkOfRows types)).map fun c => aggDelta c .CountStar).sum)
      (0 + ((rowss.map (chunkOfRows types)).map fun c => aggDelta c (.Count col)).sum)
      fin he rfl
    simp only [zero_add, hsum1, hsum2] at e1 e2 e3 ⊢
    simp only [List.nil_append, List.map_cons, List.map_nil, e1, e2, e3]

/-- Witness for C4 on a concrete two-batch file `(name, age)` with three
rows, one of which has a Null age: `COUNT(*) = 3` and `COUNT(age) = 2`. -/
theorem C4_witness :
    (∀ rows ∈ ([[[Value.Varchar "a", Value.Integer 30], [Value.Varchar "b", Value.Null]],
        [[Value.Varchar "c", Value.Integer 41]]] : List (List (List Value))), rows ≠ []) ∧
    ((PipelineExecutor.execute 3 [[ColumnType.Varchar, ColumnType.Integer],
        [.Integer, .Integer]]
      (.source ⟨([[[Value.Varchar "a", Value.Integer 30], [Value.Varchar "b", Value.Null]],
          [[Value.Varchar "c", Value.Integer 41]]] : List (List (List Value))).map
        (chunkOfRows [ColumnType.Varchar, ColumnType.Integer])⟩)
      [.aggregate (AggState.new
        [.CountStar, .Count ⟨"age", ColumnType.Integer, 1⟩])]).results.map
        fun c => (c.selected_count, c.get_value 0 0, c.get_value 1 0)) =
      [((1 : Nat), some (.Integer 3), some (.Integer 2))] := by
  refine ⟨by decide, ?_⟩
  have h := C4_count_star_and_count_column [ColumnType.Varchar, ColumnType.Integer]
    ⟨"age", ColumnType.Integer, 1⟩
    [[[Value.Varchar "a", Value.Integer 30], [Value.Varchar "b", Value.Null]],
      [[Value.Varchar "c", Value.Integer 41]]]
    (by decide) (by decide) (by decide) (by decide) (by decide)
  exact h.trans (by decide)

/-! ## C5: LIMIT/OFFSET row counts through the pipeline -/

theorem new_is_empty (types : List ColumnType) (cap : Nat) :
    (DataChunk.new types cap).is_empty = true := rfl

theorem selected_count_none (c : DataChunk) (h : c.selection = none) :
    c.selected_count = c.count := by
  simp [DataChunk.selected_count, h]

theorem is_empty_false_of_count (c : DataChunk) (h : c.count ≠ 0) :
    c.is_empty = false := by
  simp [DataChunk.is_empty, h]

theorem apply_offset_selected_count (c : DataChunk) (n : Nat)
    (hsel : c.selection = none) (hn : n < c.count) :
    (c.apply_offset n).selected_count = c.count - n := by
  unfold DataChunk.apply_offset
  by_cases h0 : n = 0
  · subst h0
    simp [selected_count_none c hsel]
  · have hge : ¬ n ≥ c.count := by omega
    simp [h0, hsel, hge, DataChunk.selected_count, SelectionVector.count]

theorem truncate_selected_count (c : DataChunk) (n : Nat) :
    (c.truncate n).selected_count = min n c.selected_count := by
  unfold DataChunk.truncate
  by_cases h : n ≥ c.selected_count
  · simp only [h, if_true, ite_true]
    omega
  · simp only [h, if_false, ite_false]
    cases hs : c.selection with
    | some sel =>
      simp only [hs, DataChunk.selected_count, SelectionVector.count,
        List.length_take]
    | none =>
      have hc : c.selected_count = c.count := selected_count_none c hs
      simp only [hs, DataChunk.selected_count, SelectionVector.count,
        List.length_map, List.length_range]
      omega

theorem rowsOf_append (res : List DataChunk) (c : DataChunk) :
    rowsOf (res ++ [c]) = rowsOf res + c.selected_count := by
  simp [rowsOf]

theorem limitExecute_empty_input (st : LimitState) (input output : DataChunk)
    (h : input.is_empty = true) :
    limitExecute st input output = (st, output, .Finished) := by
  unfold limitExecute
  by_cases hc : (match st.limit with
    | some l => decide (st.rows_emitted ≥ l) | none => false) = true
  · simp [hc]
  · simp [hc, h]

theorem limitExecute_done (k r m : Nat) (off : Option Nat) (h : k ≤ m)
    (input output : DataChunk) :
    limitExecute ⟨some k, off, r, m⟩ input output =
      (⟨some k, off, r, m⟩, output, .Finished) := by
  unfold limitExecute
  have hd : decide (m ≥ k) = true := by simpa using h
  simp [hd]

theorem limitExecute_swallow (k r m : Nat) (off : Option Nat)
    (input output : DataChunk) (hm : m < k) (hsel : input.selection = none)
    (hr : input.count ≤ r) (h0 : input.count ≠ 0) :
    limitExecute ⟨some k, off, r, m⟩ input output =
      (⟨some k, off, r - input.count, m⟩, input.reset, .NeedMoreInput) := by
  unfold limitExecute
  have hd : ¬ (m ≥ k) := by omega
  have hin : input.is_empty = false := is_empty_false_of_count input h0
  have hrpos : r > 0 := by omega
  simp [hd, hin, hrpos, selected_count_none input hsel, hr]

theorem limitApplyLimit_facts (k m r : Nat) (off : Option Nat) (out : DataChunk)
    (hm : m < k) :
    (limitApplyLimit ⟨some k, off, r, m⟩ out).1 =
      ⟨some k, off, r, m + min out.selected_count (k - m)⟩ ∧
    (limitApplyLimit ⟨some k, off, r, m⟩ out).2.1.selected_count =
      min out.selected_count (k - m) ∧
    (limitApplyLimit ⟨some k, off, r, m⟩ out).2.1.count = out.count := by
  unfold limitApplyLimit
  by_cases hgt : out.selected_count > k - m
  · have ht := truncate_selected_count out (k - m)
    have htc := truncate_count out (k - m)
    have hmin : min (k - m) out.selected_count = k - m := by omega
    have hmin2 : min out.selected_count (k - m) = k - m := by omega
    rw [hmin] at ht
    have hfin : k ≤ m + (k - m) := by omega
    simp [hgt, ht, htc, hmin2, hfin]
  · have hmin2 : min out.selected_count (k - m) = out.selected_count := by omega
    by_cases hfin : k ≤ m + out.selected_count
    · simp [hgt, hfin, hmin2]
    · simp [hgt, hfin, hmin2]

theorem limitExecute_emit (k r m : Nat) (off : Option Nat)
    (input output : DataChunk) (hm : m < k) (hsel : input.selection = none)
    (hr : r < input.count) (h0 : input.count ≠ 0) :
    (limitExecute ⟨some k, off, r, m⟩ input output).1 =
      ⟨some k, off, 0, m + min (input.count - r) (k - m)⟩ ∧
    (limitExecute ⟨some k, off, r, m⟩ input output).2.1.selected_count =
      min (input.count - r) (k - m) ∧
    (limitExecute ⟨some k, off, r, m⟩ input output).2.1.count = input.count := by
  have hd : ¬ (m ≥ k) := by omega
  have hin : input.is_empty = false := is_empty_false_of_count input h0
  by_cases hr0 : r = 0
  · subst hr0
    have heq : limitExecute ⟨some k, off, 0, m⟩ input output =
        limitApplyLimit ⟨some k, off, 0, m⟩ input := by
      unfold limitExecute
      simp [hd, hin]
    rw [heq]
    obtain ⟨f1, f2, f3⟩ := limitApplyLimit_facts k m 0 off input hm
    refine ⟨?_, ?_, ?_⟩
    · rw [f1, selected_count_none input hsel]
      simp
    · rw [f2, selected_count_none input hsel]
      simp
    · exact f3
  · have hrpos : r > 0 := by omega
    have hngt : ¬ (input.selected_count ≤ r) := by
      rw [selected_count_none input hsel]
      omega
    have heq : limitExecute ⟨some k, off, r, m⟩ input output =
        limitApplyLimit ⟨some k, off, 0, m⟩ (input.apply_offset r) := by
      unfold limitExecute
      simp [hd, hin, hrpos, hngt]
    rw [heq]
    obtain ⟨f1, f2, f3⟩ := limitApplyLimit_facts k m 0 off (input.apply_offset r) hm
    have hsc := apply_offset_selected_count input r hsel hr
    have hcc := apply_offset_count input r
    exact ⟨by rw [f1, hsc], by rw [f2, hsc], by rw [f3, hcc]⟩

/-- The executor on a `[source, limit]` pipeline: starting from offset
remainder `r` and `m` rows already emitted, the run adds exactly
`min (N - r) (k - m)` selected rows to the collected results, where `N` is
the total row count of the remaining source batches. -/
theorem executeLoop_limit (ts : List ColumnType) (cs : List DataChunk) :
    ∀ (k r m : Nat) (off : Option Nat) (pool : BufferPool) (res : List DataChunk)
      (it : Nat) (tr : List (List ExecuteResult)),
      (∀ c ∈ cs, c.selection = none) →
      (∀ c ∈ cs, c.count ≠ 0) →
      rowsOf (executeLoop (cs.length + 1) [ts, ts] (.source ⟨cs⟩)
        [.limitOp ⟨some k, off, r, m⟩] pool false res it tr).results =
        rowsOf res + min ((cs.map DataChunk.count).sum - r) (k - m) := by
  induction cs with
  | nil =>
    intro k r m off pool res it tr _ _
    show rowsOf (executeLoop (0 + 1) _ _ _ _ _ _ _ _).results = _
    simp only [Nat.zero_add, executeLoop, acquireAll_fst, List.map, execOp, sourceExecute,
      pushThrough, limitExecute_empty_input, reset_is_empty, new_is_empty,
      Bool.false_and, Bool.and_false, Bool.true_and, Bool.and_true,
      Bool.not_true, Bool.not_false, Bool.or_true, Bool.false_or,
      if_true, if_false, ite_true, ite_false]
    simp [rowsOf, new_is_empty]
  | cons c cs ih =>
    intro k r m off pool res it tr hsel hcnt
    have hc0 : c.count ≠ 0 := hcnt c (List.mem_cons_self c cs)
    have hcsel : c.selection = none := hsel c (List.mem_cons_self c cs)
    have hce : c.is_empty = false := is_empty_false_of_count c hc0
    have hsel' : ∀ x ∈ cs, x.selection = none :=
      fun x hx => hsel x (List.mem_cons_of_mem c hx)
    have hcnt' : ∀ x ∈ cs, x.count ≠ 0 :=
      fun x hx => hcnt x (List.mem_cons_of_mem c hx)
    show rowsOf (executeLoop (cs.length + 1 + 1) _ _ _ _ _ _ _ _).results = _
    conv_lhs => rw [executeLoop]
    simp only [acquireAll_fst, List.map, execOp, sourceExecute, pushThrough, hce,
      reset_is_empty, new_is_empty, Bool.false_and, Bool.and_false, Bool.true_and,
      Bool.and_true, Bool.not_true, Bool.not_false, Bool.or_false, Bool.false_or,
      Bool.false_eq_true, if_true, if_false, ite_true, ite_false,
      List.getLastD_cons, List.getLastD_nil, decide_eq_true_eq]
    by_cases hmk : k ≤ m
    · rw [limitExecute_done k r m off hmk]
      simp only [new_is_empty, Bool.not_true, Bool.false_eq_true, if_false, ite_false]
      rw [ih k r m off _ res _ _ hsel' hcnt']
      have : k - m = 0 := by omega
      simp [this]
    · have hmk' : m < k := by omega
      by_cases hsw : c.count ≤ r
      · rw [limitExecute_swallow k r m off c _ hmk' hcsel hsw hc0]
        simp only [reset_is_empty, Bool.not_true, Bool.false_eq_true, if_false, ite_false]
        rw [ih k (r - c.count) m off _ res _ _ hsel' hcnt']
        have : (c.count + (cs.map DataChunk.count).sum) - r =
            ((cs.map DataChunk.count).sum) - (r - c.count) := by omega
        simp [this]
      · have hrc : r < c.count := by omega
        obtain ⟨q1, q2, q3⟩ :=
          limitExecute_emit k r m off c (DataChunk.new ts pool.chunk_size) hmk' hcsel hrc hc0
        have q4 : (limitExecute ⟨some k, off, r, m⟩ c
            (DataChunk.new ts pool.chunk_size)).2.1.is_empty = false := by
          apply is_empty_false_of_count
          rw [q3]
          exact hc0
        rw [q1]
        simp only [q4, Bool.not_false, if_true, ite_true]
        rw [ih k 0 (m + min (c.count - r) (k - m)) off _
          (res ++ [(limitExecute ⟨some k, off, r, m⟩ c
            (DataChunk.new ts pool.chunk_size)).2.1]) _ _ hsel' hcnt']
        rw [rowsOf_append, q2]
        simp only [List.sum_cons]
        omega

/-- C5: for every sequence of non-empty source batches with `N` rows in
total, the pipeline `[scan, Limit k (OFFSET j)]` returns exactly
`min (N - j) k` selected rows (`N - j` is truncated subtraction, i.e.
`max (N - j) 0`; with no OFFSET, `j = 0` and the count is `min N k`): the
Limit operator consumes the first `j` selected rows across batches before
emitting, and then emits at most `k` further selected rows, checking the
limit only after the offset is exhausted. -/
theorem C5_limit_offset_row_count (ts : List ColumnType) (cs : List DataChunk)
    (k : Nat) (off : Option Nat)
    (hsel : ∀ c ∈ cs, c.selection = none)
    (hcnt : ∀ c ∈ cs, c.count ≠ 0) :
    rowsOf (PipelineExecutor.execute (cs.length + 1) [ts, ts]
      (.source ⟨cs⟩) [.limitOp (LimitState.new (some k) off)]).results =
      min ((cs.map DataChunk.count).sum - off.getD 0) k := by
  unfold PipelineExecutor.execute
  rw [show LimitState.new (some k) off =
    ⟨some k, off, off.getD 0, 0⟩ from rfl]
  rw [executeLoop_limit ts cs k (off.getD 0) 0 off
    ⟨[], 100, DataChunk.STANDARD_VECTOR_SIZE⟩ [] 0 [] hsel hcnt]
  simp [rowsOf]

/-- Witness for C5: five rows in two batches, `LIMIT 3 OFFSET 2` returns
`min (5 - 2) 3 = 3` rows. -/
theorem C5_witness :
    (∀ c ∈ [chunkOfRows [ColumnType.Integer]
        [[Value.Integer 1], [Value.Integer 2], [Value.Integer 3]],
      chunkOfRows [ColumnType.Integer] [[Value.Integer 4], [Value.Integer 5]]],
      c.selection = none ∧ c.count ≠ 0) ∧
    rowsOf (PipelineExecutor.execute 3 [[ColumnType.Integer], [ColumnType.Integer]]
      (.source ⟨[chunkOfRows [ColumnType.Integer]
          [[Value.Integer 1], [Value.Integer 2], [Value.Integer 3]],
        chunkOfRows [ColumnType.Integer] [[Value.Integer 4], [Value.Integer 5]]]⟩)
      [.limitOp (LimitState.new (some 3) (some 2))]).results = 3 := by
  refine ⟨by decide, ?_⟩
  have h := C5_limit_offset_row_count [ColumnType.Integer]
    [chunkOfRows [ColumnType.Integer]
        [[Value.Integer 1], [Value.Integer 2], [Value.Integer 3]],
      chunkOfRows [ColumnType.Integer] [[Value.Integer 4], [Value.Integer 5]]]
    3 (some 2) (by decide) (by decide)
  exact h.trans (by decide)

/-! ## C9: dead-code elimination of constant filters -/

theorem optimize_congr (p1 p2 : LogicalOperator)
    (h : Optimizer.eliminate_dead_code p1 = Optimizer.eliminate_dead_code p2) :
    Optimizer.optimize p1 = Optimizer.optimize p2 := by
  unfold Optimizer.optimize
  rw [h]

theorem evaluate_predicate_false_lit (t : ColumnType) (chunk : DataChunk) (r : Nat) :
    evaluate_predicate (.Literal (.Boolean false) t) chunk r = false := rfl

theorem filterExecute_false_selected_count (t : ColumnType) (c : DataChunk) :
    (filterExecute (.Literal (.Boolean false) t) c).selected_count = 0 := by
  simp [filterExecute, DataChunk.selected_count, SelectionVector.count,
    evaluate_predicate_false_lit]

theorem projectionExecute_empty_sel (es : List BoundExpression) (inp : DataChunk)
    (h : inp.selected_count = 0) :
    (projectionExecute es inp).is_empty = true := by
  simp [projectionExecute, DataChunk.is_empty, h]

/-- The executor on `[source, Filter false, Projection]`: no batch is ever
collected. -/
theorem executeLoop_filter_false (ts ps : List ColumnType) (t : ColumnType)
    (es : List BoundExpression) (cs : List DataChunk) :
    ∀ (pool : BufferPool) (res : List DataChunk) (it : Nat)
      (tr : List (List ExecuteResult)),
      (∀ c ∈ cs, c.is_empty = false) →
      (executeLoop (cs.length + 1) [ts, ts, ps] (.source ⟨cs⟩)
        [.filter (.Literal (.Boolean false) t), .projection es]
        pool false res it tr).results = res := by
  induction cs with
  | nil =>
    intro pool res it tr _
    show (executeLoop (0 + 1) _ _ _ _ _ _ _ _).results = _
    simp only [Nat.zero_add, executeLoop, acquireAll_fst, List.map, execOp,
      sourceExecute, pushThrough, reset_is_empty, new_is_empty,
      Bool.false_and, Bool.and_false, Bool.true_and, Bool.and_true,
      Bool.not_true, Bool.not_false, Bool.or_true, Bool.false_or,
      if_true, if_false, ite_true, ite_false,
      List.getLastD_cons, List.getLastD_nil]
    rw [projectionExecute_empty_sel es _ (filterExecute_false_selected_count t _)]
    simp
  | cons c cs ih =>
    intro pool res it tr hne
    have hce : c.is_empty = false := hne c (List.mem_cons_self c cs)
    show (executeLoop (cs.length + 1 + 1) _ _ _ _ _ _ _ _).results = _
    conv_lhs => rw [executeLoop]
    simp only [acquireAll_fst, List.map, execOp, sourceExecute, pushThrough, hce,
      reset_is_empty, new_is_empty, Bool.false_and, Bool.and_false, Bool.true_and,
      Bool.and_true, Bool.not_true, Bool.not_false, Bool.or_false, Bool.false_or,
      Bool.false_eq_true, if_true, if_false, ite_true, ite_false,
      List.getLastD_cons, List.getLastD_nil, decide_eq_true_eq]
    rw [projectionExecute_empty_sel es _ (filterExecute_false_selected_count t _)]
    simp only [Bool.not_true, Bool.false_eq_true, if_false, ite_false]
    exact ih _ res _ _ (fun x hx => hne x (List.mem_cons_of_mem c hx))

theorem is_constant_false_not_true (e : BoundExpression)
    (h : Optimizer.is_constant_false e = true) :
    Optimizer.is_constant_true e = false := by
  cases e with
  | Literal v t =>
    cases v with
    | Boolean b => cases b <;> simp_all [Optimizer.is_constant_false,
        Optimizer.is_constant_true]
    | _ => simp_all [Optimizer.is_constant_false]
  | _ => simp_all [Optimizer.is_constant_false]

/-- C9: a Filter whose condition simplifies to the literal `true` is removed
by dead-code elimination (its child replaces it); a Filter whose condition
simplifies to the literal `false` is retained (with the simplified
condition); consequently a planned query with a WHERE clause simplifying to
`true` optimizes to exactly the optimized plan of the same query with no
WHERE clause, and the executor returns zero result batches for a pipeline
whose Filter predicate is the literal `false`. -/
theorem C9_constant_filter_elimination :
    (∀ (e : BoundExpression) (c : LogicalOperator),
      Optimizer.is_constant_true (Optimizer.simplify_expression e) = true →
      Optimizer.eliminate_dead_code (.Filter e c) = Optimizer.eliminate_dead_code c) ∧
    (∀ (e : BoundExpression) (c : LogicalOperator),
      Optimizer.is_constant_false (Optimizer.simplify_expression e) = true →
      Optimizer.eliminate_dead_code (.Filter e c) =
        .Filter (Optimizer.simplify_expression e) (Optimizer.eliminate_dead_code c)) ∧
    (∀ (q : BoundQuery) (e : BoundExpression),
      q.where_clause = some e →
      Optimizer.is_constant_true (Optimizer.simplify_expression e) = true →
      Optimizer.optimize (Planner.plan q) =
        Optimizer.optimize (Planner.plan { q with where_clause := none })) ∧
    (∀ (ts ps : List ColumnType) (t : ColumnType) (es : List BoundExpression)
      (cs : List DataChunk),
      (∀ c ∈ cs, c.is_empty = false) →
      (PipelineExecutor.execute (cs.length + 1) [ts, ts, ps] (.source ⟨cs⟩)
        [.filter (.Literal (.Boolean false) t), .projection es]).results = []) := by
  refine ⟨?_, ?_, ?_, ?_⟩
  · intro e c h
    simp [Optimizer.eliminate_dead_code, h]
  · intro e c h
    simp [Optimizer.eliminate_dead_code, is_constant_false_not_true _ h]
  · intro q e hw htrue
    apply optimize_congr
    unfold Planner.plan
    simp only [hw]
    by_cases hagg : q.aggregates.isEmpty <;>
      by_cases hlim : (q.limit.isSome || q.offset.isSome) = true <;>
        simp [hagg, hlim, Optimizer.eliminate_dead_code, htrue]
  · intro ts ps t es cs hne
    unfold PipelineExecutor.execute
    exact executeLoop_filter_false ts ps t es cs _ [] 0 [] hne

/-- Witness for C9 at concrete plans and a concrete one-row pipeline. -/
theorem C9_witness :
    Optimizer.eliminate_dead_code
        (.Filter (.Literal (.Boolean true) .Boolean) (.Get "f.csv" [] none)) =
      Optimizer.eliminate_dead_code (.Get "f.csv" [] none) ∧
    Optimizer.eliminate_dead_code
        (.Filter (.Literal (.Boolean false) .Boolean) (.Get "f.csv" [] none)) =
      .Filter (Optimizer.simplify_expression (.Literal (.Boolean false) .Boolean))
        (Optimizer.eliminate_dead_code (.Get "f.csv" [] none)) ∧
    Optimizer.optimize (Planner.plan ⟨[⟨"a", .Integer, 0⟩], "f.csv", [⟨"a", .Integer, 0⟩],
        some (.Literal (.Boolean true) .Boolean), none, none, []⟩) =
      Optimizer.optimize (Planner.plan ⟨[⟨"a", .Integer, 0⟩], "f.csv", [⟨"a", .Integer, 0⟩],
        none, none, none, []⟩) ∧
    (PipelineExecutor.execute 2 [[ColumnType.Integer], [ColumnType.Integer],
        [ColumnType.Integer]]
      (.source ⟨[chunkOfRows [ColumnType.Integer] [[Value.Integer 1]]]⟩)
      [.filter (.Literal (.Boolean false) .Boolean),
        .projection [.ColumnRef "a" 0 .Integer]]).results = [] := by
  obtain ⟨h1, h2, h3, h4⟩ := C9_constant_filter_elimination
  exact ⟨h1 _ _ (by decide), h2 _ _ (by decide), h3 _ _ rfl (by decide),
    h4 [ColumnType.Integer] [ColumnType.Integer] .Boolean [.ColumnRef "a" 0 .Integer]
      [chunkOfRows [ColumnType.Integer] [[Value.Integer 1]]] (by decide)⟩

/-! ## C7: projection pushdown and index remapping -/

theorem collect_expr_eq_refIndices :
    Optimizer.collect_columns_from_expression = exprRefIndices := by
  funext e
  induction e <;>
    simp [Optimizer.collect_columns_from_expression, exprRefIndices, *]

theorem collect_required_eq_planRefIndices (p : LogicalOperator) :
    Optimizer.collect_required_columns p = planRefIndices p := by
  induction p <;>
    simp [Optimizer.collect_required_columns, planRefIndices,
      collect_expr_eq_refIndices, *]

theorem getColumns_pushdown (req : List Nat) (p : LogicalOperator) :
    getColumns (Optimizer.apply_projection_pushdown req p) =
      (getColumns p).filter fun c => req.contains c.index := by
  induction p <;>
    simp [Optimizer.apply_projection_pushdown, getColumns, *]

theorem build_index_mapping_eq_getColumns (p : LogicalOperator) :
    Optimizer.build_index_mapping p =
      ((getColumns p).zip (List.range (getColumns p).length)).map
        fun pc => (pc.1.index, pc.2) := by
  induction p <;> simp [Optimizer.build_index_mapping, getColumns, *]

theorem mapping_keys (cols : List Column) :
    (((cols.zip (List.range cols.length)).map fun pc => (pc.1.index, pc.2)).map
      Prod.fst) = cols.map (·.index) := by
  rw [List.map_map]
  have : (Prod.fst ∘ fun pc : Column × Nat => (pc.1.index, pc.2)) =
      (fun c : Column => c.index) ∘ Prod.fst := rfl
  rw [this, ← List.map_map, List.map_fst_zip]
  simp

theorem find_key_unique (l : List (Nat × Nat)) (k v : Nat) :
    (l.map Prod.fst).Nodup → (k, v) ∈ l →
    (l.find? fun pr => pr.1 == k) = some (k, v) := by
  induction l with
  | nil => intro _ h; cases h
  | cons a l ih =>
    intro hnd hp
    rcases List.mem_cons.mp hp with heq | hmem
    · subst heq
      rw [List.find?_cons]
      simp
    · have hk : k ∈ l.map Prod.fst := List.mem_map_of_mem Prod.fst hmem
      have hne : a.1 ≠ k := by
        intro hcon
        have := (List.nodup_cons.mp hnd).1
        rw [hcon] at this
        exact this hk
      have hbeq : (a.1 == k) = false := by
        simpa using hne
      rw [List.find?_cons, hbeq]
      exact ih (List.nodup_cons.mp hnd).2 hmem

theorem hashMapGet_some (m : List (Nat × Nat)) (k v : Nat)
    (hnd : (m.map Prod.fst).Nodup) (hp : (k, v) ∈ m) :
    Optimizer.hashMapGet m k = some v := by
  unfold Optimizer.hashMapGet
  have hnd' : (m.reverse.map Prod.fst).Nodup := by
    rw [List.map_reverse]
    exact List.nodup_reverse.mpr hnd
  have hp' : (k, v) ∈ m.reverse := List.mem_reverse.mpr hp
  rw [find_key_unique m.reverse k v hnd' hp']
  rfl

theorem mappingOf_mem (cols : List Column) (j : Nat) (hj : j < cols.length) :
    ((cols.get ⟨j, hj⟩).index, j) ∈
      (cols.zip (List.range cols.length)).map fun pc => (pc.1.index, pc.2) := by
  have hz : j < (cols.zip (List.range cols.length)).length := by
    simp [List.length_zip]
    omega
  have hget : (cols.zip (List.range cols.length)).get ⟨j, hz⟩ =
      (cols.get ⟨j, hj⟩, j) := by
    simp only [List.get_eq_getElem, List.getElem_zip, List.getElem_range]
  have hmem : ((cols.get ⟨j, hj⟩, j) : Column × Nat) ∈
      cols.zip (List.range cols.length) := by
    rw [← hget]
    exact List.get_mem _ _ hz
  exact List.mem_map_of_mem _ hmem

theorem hashMapGet_mappingOf (cols : List Column) (i : Nat)
    (hnd : (cols.map (·.index)).Nodup) (hi : i ∈ cols.map (·.index)) :
    Optimizer.hashMapGet
        ((cols.zip (List.range cols.length)).map fun pc => (pc.1.index, pc.2)) i =
      some ((cols.map (·.index)).indexOf i) := by
  have hlt : (cols.map (·.index)).indexOf i < (cols.map (·.index)).length :=
    List.indexOf_lt_length.mpr hi
  have hjlt : (cols.map (·.index)).indexOf i < cols.length := by
    simpa using hlt
  have hkey : (cols.get ⟨(cols.map (·.index)).indexOf i, hjlt⟩).index = i := by
    have hget : (cols.map (·.index)).get? ((cols.map (·.index)).indexOf i) = some i :=
      List.indexOf_get? hi
    rw [List.get?_eq_getElem?, List.getElem?_eq_getElem hlt] at hget
    have hval : ((cols.map (·.index))[(cols.map (·.index)).indexOf i] : Nat) = i := by
      simpa using hget
    rw [List.getElem_map] at hval
    simpa [List.get_eq_getElem] using hval
  apply hashMapGet_some
  · rw [mapping_keys]
    exact hnd
  · have := mappingOf_mem cols ((cols.map (·.index)).indexOf i) hjlt
    rw [hkey] at this
    exact this

theorem exprRefIndices_remap (m : List (Nat × Nat)) (e : BoundExpression) :
    exprRefIndices (Optimizer.remap_expression m e) =
      (exprRefIndices e).map fun i => (Optimizer.hashMapGet m i).getD i := by
  induction e <;> simp [Optimizer.remap_expression, exprRefIndices, *]

theorem agg_extract_remap (m : List (Nat × Nat))
    (aggs : List BoundAggregateExpression) :
    ((aggs.map (Optimizer.remap_aggregate m)).filterMap fun agg =>
      match agg with
      | .Count column => some column.index
      | .CountStar => none) =
    ((aggs.filterMap fun agg =>
      match agg with
      | .Count column => some column.index
      | .CountStar => none).map fun i => (Optimizer.hashMapGet m i).getD i) := by
  induction aggs with
  | nil => rfl
  | cons a aggs ih =>
    cases a with
    | CountStar => simpa [Optimizer.remap_aggregate] using ih
    | Count col =>
      cases hm : Optimizer.hashMapGet m col.index with
      | some new => simp [Optimizer.remap_aggregate, hm, ih]
      | none => simp [Optimizer.remap_aggregate, hm, ih]

theorem prunedKeys_nodup (req : List Nat) (cols : List Column)
    (hnd : (cols.map (·.index)).Nodup) :
    (((cols.filter fun c => req.contains c.index).map (·.index)).Nodup) :=
  ((List.filter_sublist cols).map _).nodup hnd

/-- Index remapping above the pruned Get: after projection pushdown, every
referenced column index (ColumnRefs in Projections and Filters, Count
columns in Aggregates) equals the position of its original index in the
pruned Get's columns list. -/
theorem planRefIndices_pushdown (req : List Nat) (p : LogicalOperator) :
    ((getColumns p).map (·.index)).Nodup →
    (∀ i ∈ planRefIndices p,
      i ∈ (((getColumns p).filter fun c => req.contains c.index).map (·.index))) →
    planRefIndices (Optimizer.apply_projection_pushdown req p) =
      (planRefIndices p).map fun i =>
        ((((getColumns p).filter fun c => req.contains c.index).map (·.index)).indexOf i) := by
  induction p with
  | Get fp cols mr =>
    intro hnd hmem
    simp [Optimizer.apply_projection_pushdown, planRefIndices]
  | Filter e child ih =>
    intro hnd hmem
    simp only [getColumns] at hnd hmem ⊢
    show exprRefIndices (Optimizer.remap_expression
        (Optimizer.build_index_mapping (Optimizer.apply_projection_pushdown req child)) e)
      ++ planRefIndices (Optimizer.apply_projection_pushdown req child) = _
    rw [show planRefIndices (LogicalOperator.Filter e child) =
      exprRefIndices e ++ planRefIndices child from rfl, List.map_append]
    congr 1
    · rw [exprRefIndices_remap]
      apply List.map_congr_left
      intro i hi
      have hkey := hmem i (List.mem_append_left _ hi)
      rw [build_index_mapping_eq_getColumns, getColumns_pushdown,
        hashMapGet_mappingOf _ i (prunedKeys_nodup req _ hnd) hkey]
      rfl
    · exact ih hnd (fun i hi => hmem i (List.mem_append_right _ hi))
  | Projection exprs child ih =>
    intro hnd hmem
    simp only [getColumns] at hnd hmem ⊢
    show (((exprs.map (Optimizer.remap_expression
        (Optimizer.build_index_mapping
          (Optimizer.apply_projection_pushdown req child)))).map exprRefIndices).flatten)
      ++ planRefIndices (Optimizer.apply_projection_pushdown req child) = _
    rw [show planRefIndices (LogicalOperator.Projection exprs child) =
      (exprs.map exprRefIndices).flatten ++ planRefIndices child from rfl, List.map_append]
    congr 1
    · rw [List.map_flatten, List.map_map, List.map_map]
      congr 1
      apply List.map_congr_left
      intro e he
      show exprRefIndices (Optimizer.remap_expression _ e) = _
      rw [exprRefIndices_remap]
      apply List.map_congr_left
      intro i hi
      have hflat : i ∈ (exprs.map exprRefIndices).flatten :=
        List.mem_flatten.mpr ⟨exprRefIndices e, List.mem_map_of_mem _ he, hi⟩
      have hkey := hmem i (List.mem_append_left _ hflat)
      rw [build_index_mapping_eq_getColumns, getColumns_pushdown,
        hashMapGet_mappingOf _ i (prunedKeys_nodup req _ hnd) hkey]
      rfl
    · exact ih hnd (fun i hi => hmem i (List.mem_append_right _ hi))
  | Limit l o child ih =>
    intro hnd hmem
    simp only [getColumns] at hnd hmem ⊢
    exact ih hnd hmem
  | Aggregate aggs child ih =>
    intro hnd hmem
    simp only [getColumns] at hnd hmem ⊢
    show ((aggs.map (Optimizer.remap_aggregate
        (Optimizer.build_index_mapping
          (Optimizer.apply_projection_pushdown req child)))).filterMap fun agg =>
        match agg with
        | .Count column => some column.index
        | .CountStar => none)
      ++ planRefIndices (Optimizer.apply_projection_pushdown req child) = _
    rw [show planRefIndices (LogicalOperator.Aggregate aggs child) =
      (aggs.filterMap fun agg =>
        match agg with
        | .Count column => some column.index
        | .CountStar => none) ++ planRefIndices child from rfl, List.map_append]
    congr 1
    · rw [agg_extract_remap]
      apply List.map_congr_left
      intro i hi
      have hkey := hmem i (List.mem_append_left _ hi)
      rw [build_index_mapping_eq_getColumns, getColumns_pushdown,
        hashMapGet_mappingOf _ i (prunedKeys_nodup req _ hnd) hkey]
      rfl
    · exact ih hnd (fun i hi => hmem i (List.mem_append_right _ hi))

/-- C7: for the Get produced by projection pushdown under the required-column
set of §4.2 (on a plan whose Get columns carry their schema positions as
indices, with all references in range): (1) every retained Column keeps its
original `index`, under which it is found at that position of the original
schema; (2) the retained index set is exactly the set of column indices
referenced by Projection expressions, Filter expressions and Count
aggregates above the Get; (3) every ColumnRef and Count column above the Get
is rewritten to the retained column's contiguous position in the pruned
columns list. -/
theorem C7_projection_pushdown (p : LogicalOperator)
    (hidx : (getColumns p).map (·.index) = List.range (getColumns p).length)
    (hrange : ∀ i ∈ planRefIndices p, i < (getColumns p).length) :
    (∀ c ∈ getColumns (Optimizer.apply_projection_pushdown
        (Optimizer.collect_required_columns p) p),
      (getColumns p).get? c.index = some c) ∧
    (∀ i, i ∈ (getColumns (Optimizer.apply_projection_pushdown
        (Optimizer.collect_required_columns p) p)).map (·.index) ↔
      i ∈ planRefIndices p) ∧
    planRefIndices (Optimizer.apply_projection_pushdown
        (Optimizer.collect_required_columns p) p) =
      (planRefIndices p).map fun i =>
        ((getColumns (Optimizer.apply_projection_pushdown
          (Optimizer.collect_required_columns p) p)).map (·.index)).indexOf i := by
  have hnd : ((getColumns p).map (·.index)).Nodup := by
    rw [hidx]
    exact List.nodup_range _
  have hkeysfilter : (getColumns (Optimizer.apply_projection_pushdown
      (Optimizer.collect_required_columns p) p)).map (·.index) =
      ((getColumns p).map (·.index)).filter
        (fun i => (Optimizer.collect_required_columns p).contains i) := by
    rw [getColumns_pushdown, List.filter_map]
    rfl
  have hmemiff : ∀ i, i ∈ (getColumns (Optimizer.apply_projection_pushdown
      (Optimizer.collect_required_columns p) p)).map (·.index) ↔
      i ∈ planRefIndices p := by
    intro i
    rw [hkeysfilter]
    simp only [hidx, List.mem_filter, List.mem_range]
    constructor
    · intro h
      have hc := List.elem_iff.mp h.2
      rwa [collect_required_eq_planRefIndices] at hc
    · intro h
      refine ⟨hrange i h, List.elem_iff.mpr ?_⟩
      rw [collect_required_eq_planRefIndices]
      exact h
  refine ⟨?_, hmemiff, ?_⟩
  · intro c hc
    rw [getColumns_pushdown] at hc
    have hcmem : c ∈ getColumns p := (List.mem_filter.mp hc).1
    obtain ⟨j, hj, hcj⟩ := List.mem_iff_getElem.mp hcmem
    have hj2 : j < ((getColumns p).map (·.index)).length := by simpa using hj
    have hkj : ((getColumns p).map (·.index))[j] = j :=
      (List.getElem_of_eq hidx hj2).trans (List.getElem_range _ _)
    rw [List.getElem_map] at hkj
    have hcidx : c.index = j := by
      rw [← hcj]
      exact hkj
    rw [hcidx, List.get?_eq_getElem?, List.getElem?_eq_getElem hj, hcj]
  · have hmem : ∀ i ∈ planRefIndices p,
        i ∈ (((getColumns p).filter fun c =>
          (Optimizer.collect_required_columns p).contains c.index).map (·.index)) := by
      intro i hi
      have := (hmemiff i).mpr hi
      rw [getColumns_pushdown] at this
      exact this
    have h3 := planRefIndices_pushdown (Optimizer.collect_required_columns p) p hnd hmem
    rw [h3, getColumns_pushdown]

/-- Witness for C7 on `SELECT c FROM f WHERE a = 1` over schema `(a, b, c)`:
the pruned Get keeps columns `a` and `c` with their original indices `0` and
`2`, and the references `[2, 0]` are remapped to positions `[1, 0]`. -/
theorem C7_witness :
    (getColumns (.Projection [.ColumnRef "c" 2 .Integer]
        (.Filter (.Equal (.ColumnRef "a" 0 .Integer) (.Literal (.Integer 1) .Integer))
          (.Get "f" [⟨"a", .Integer, 0⟩, ⟨"b", .Integer, 1⟩, ⟨"c", .Integer, 2⟩]
            none)))).get? (⟨"c", .Integer, 2⟩ : Column).index =
      some ⟨"c", .Integer, 2⟩ ∧
    (2 ∈ (getColumns (Optimizer.apply_projection_pushdown
        (Optimizer.collect_required_columns (.Projection [.ColumnRef "c" 2 .Integer]
          (.Filter (.Equal (.ColumnRef "a" 0 .Integer) (.Literal (.Integer 1) .Integer))
            (.Get "f" [⟨"a", .Integer, 0⟩, ⟨"b", .Integer, 1⟩, ⟨"c", .Integer, 2⟩] none))))
        (.Projection [.ColumnRef "c" 2 .Integer]
          (.Filter (.Equal (.ColumnRef "a" 0 .Integer) (.Literal (.Integer 1) .Integer))
            (.Get "f" [⟨"a", .Integer, 0⟩, ⟨"b", .Integer, 1⟩, ⟨"c", .Integer, 2⟩]
              none))))).map (·.index) ↔
      2 ∈ planRefIndices (.Projection [.ColumnRef "c" 2 .Integer]
        (.Filter (.Equal (.ColumnRef "a" 0 .Integer) (.Literal (.Integer 1) .Integer))
          (.Get "f" [⟨"a", .Integer, 0⟩, ⟨"b", .Integer, 1⟩, ⟨"c", .Integer, 2⟩]
            none)))) ∧
    planRefIndices (Optimizer.apply_projection_pushdown
        (Optimizer.collect_required_columns (.Projection [.ColumnRef "c" 2 .Integer]
          (.Filter (.Equal (.ColumnRef "a" 0 .Integer) (.Literal (.Integer 1) .Integer))
            (.Get "f" [⟨"a", .Integer, 0⟩, ⟨"b", .Integer, 1⟩, ⟨"c", .Integer, 2⟩] none))))
        (.Projection [.ColumnRef "c" 2 .Integer]
          (.Filter (.Equal (.ColumnRef "a" 0 .Integer) (.Literal (.Integer 1) .Integer))
            (.Get "f" [⟨"a", .Integer, 0⟩, ⟨"b", .Integer, 1⟩, ⟨"c", .Integer, 2⟩]
              none)))) =
      (planRefIndices (.Projection [.ColumnRef "c" 2 .Integer]
        (.Filter (.Equal (.ColumnRef "a" 0 .Integer) (.Literal (.Integer 1) .Integer))
          (.Get "f" [⟨"a", .Integer, 0⟩, ⟨"b", .Integer, 1⟩, ⟨"c", .Integer, 2⟩]
            none)))).map fun i =>
        ((getColumns (Optimizer.apply_projection_pushdown
          (Optimizer.collect_required_columns (.Projection [.ColumnRef "c" 2 .Integer]
            (.Filter (.Equal (.ColumnRef "a" 0 .Integer) (.Literal (.Integer 1) .Integer))
              (.Get "f" [⟨"a", .Integer, 0⟩, ⟨"b", .Integer, 1⟩, ⟨"c", .Integer, 2⟩] none))))
          (.Projection [.ColumnRef "c" 2 .Integer]
            (.Filter (.Equal (.ColumnRef "a" 0 .Integer) (.Literal (.Integer 1) .Integer))
              (.Get "f" [⟨"a", .Integer, 0⟩, ⟨"b", .Integer, 1⟩, ⟨"c", .Integer, 2⟩]
                none))))).map (·.index)).indexOf i := by
  obtain ⟨h1, h2, h3⟩ := C7_projection_pushdown
    (.Projection [.ColumnRef "c" 2 .Integer]
      (.Filter (.Equal (.ColumnRef "a" 0 .Integer) (.Literal (.Integer 1) .Integer))
        (.Get "f" [⟨"a", .Integer, 0⟩, ⟨"b", .Integer, 1⟩, ⟨"c", .Integer, 2⟩] none)))
    (by decide) (by decide)
  exact ⟨h1 ⟨"c", .Integer, 2⟩ (by decide), h2 2, h3⟩

end Celect

